import Mathlib

/-!
Verification development for the ICFES/PIB ETL pipeline
(`dags/scripts/transform_icfes.py`, `transform_api.py`, `merge.py`, `load_dw.py`).

Shallow embedding conventions:
* a dataframe cell read with `dtype=str` is an `Option String` (`none` = NaN);
* a dataframe row is an association list from column name to cell;
* Python numeric values are modelled as `ℚ` (`Option ℚ` where NaN can occur);
* fallible scripts return `Except`, with one constructor per exception the
  source can raise on the modelled paths.
-/

/-- One dataframe row: association list from column name to cell value
(`none` models a NaN cell). Lookup takes the first matching column, which
agrees with pandas for the frames produced by this pipeline (duplicate
column labels are dropped on read in `_read_csv_robusto`). -/
abbrev Row := List (String × Option String)

/-- Decidable equality for `Except` results, so concrete runs can be
checked by `decide`. -/
instance {ε α : Type} [DecidableEq ε] [DecidableEq α] : DecidableEq (Except ε α) := fun x y =>
  match x, y with
  | .error e, .error f =>
    if h : e = f then isTrue (by rw [h]) else isFalse (by simp [h])
  | .error _, .ok _ => isFalse (by simp)
  | .ok _, .error _ => isFalse (by simp)
  | .ok a, .ok b =>
    if h : a = b then isTrue (by rw [h]) else isFalse (by simp [h])

/-- Cell lookup by column name; a column absent from the row behaves as NaN
(this matches both `row[c]` on a frame that has the column with a NaN value
and `row.get(c)` when the column is absent). -/
def getCell (r : Row) (c : String) : Option String :=
  match r.find? (fun p => p.1 == c) with
  | some p => p.2
  | none => none

/-- Python `str(x)` on a cell: NaN stringifies to `"nan"`, as
`astype(str)` does in `merge.py` lines 119-120 and
`transform_icfes.py` line 152. -/
def pyStr (v : Option String) : String := v.getD "nan"

/-- ASCII decimal digit test, as used by Python numeric parsing. -/
def isDig (c : Char) : Bool := '0' ≤ c && c ≤ '9'

/-- Numeric value of a digit character. -/
def dVal (c : Char) : ℕ := c.toNat - 48

/-- The decimal digit character for `n < 10` (clamped at `'9'`). -/
def digitChar10 : ℕ → Char
  | 0 => '0' | 1 => '1' | 2 => '2' | 3 => '3' | 4 => '4'
  | 5 => '5' | 6 => '6' | 7 => '7' | 8 => '8' | _ => '9'

/-- Value of a digit string, most significant digit first. -/
def parseDigits (cs : List Char) : ℕ := cs.foldl (fun a c => 10 * a + dVal c) 0

/-- Decimal digits of `n` (most significant first), fuel-indexed so the
recursion is structural; `natChars` supplies enough fuel. -/
def natCharsAux : ℕ → ℕ → List Char
  | 0, n => [digitChar10 n]
  | fuel + 1, n => if n < 10 then [digitChar10 n] else natCharsAux fuel (n / 10) ++ [digitChar10 (n % 10)]

/-- Decimal representation of a natural number, as Python `str` renders it. -/
def natChars (n : ℕ) : List Char := natCharsAux n n

/-- Decimal representation of an integer, as Python `str` renders it. -/
def intChars (n : ℤ) : List Char :=
  if n < 0 then '-' :: natChars (-n).toNat else natChars n.toNat

/-- Python whitespace test for `str.strip()` (ASCII whitespace; the column
values this pipeline strips are ASCII). -/
def isSpaceChar (c : Char) : Bool :=
  c = ' ' || c = '\t' || c = '\n' || c = '\r' || c = '\x0b' || c = '\x0c'

/-- Python `str.strip()`: drop whitespace from both ends. -/
def pyStrip (cs : List Char) : List Char :=
  ((cs.dropWhile isSpaceChar).reverse.dropWhile isSpaceChar).reverse

/-- Lower-case an ASCII letter, as `str.lower()` does on the ASCII column
names this pipeline lower-cases (non-ASCII letters such as `ñ` are already
lower case in those names). -/
def lowerChar (c : Char) : Char :=
  if 'A' ≤ c && c ≤ 'Z' then Char.ofNat (c.toNat + 32) else c

/-- `str.lower()` on a column name. -/
def lowerStr (s : String) : String := ⟨s.toList.map lowerChar⟩

/-- Substring containment, `needle in hay` on Python strings. -/
def containsSub (needle : List Char) : List Char → Bool
  | [] => needle.isEmpty
  | c :: t => needle.isPrefixOf (c :: t) || containsSub needle t

/-- Rename one column in a row. -/
def renameRowKey (old new : String) (r : Row) : Row :=
  r.map (fun p => if p.1 = old then (new, p.2) else p)

/-- First-occurrence deduplication with an accumulator of already-seen
elements; models Python `dict.fromkeys` / groupby key collection. -/
def dedupFirstAux {α : Type} [DecidableEq α] : List α → List α → List α
  | [], _ => []
  | x :: t, seen => if x ∈ seen then dedupFirstAux t seen else x :: dedupFirstAux t (x :: seen)

/-- Deduplicate keeping the first occurrence of each element. -/
def dedupFirst {α : Type} [DecidableEq α] (l : List α) : List α := dedupFirstAux l []

/-- Parse an unsigned plain decimal literal (digits, optional single dot,
at least one digit overall) to its exact rational value, with the given
sign factor; helper for `pyFloatCore`. -/
def pyFloatBody (sgn : ℚ) (rest : List Char) : Option ℚ :=
  let ip := rest.takeWhile isDig
  match rest.dropWhile isDig with
  | [] => if ip.isEmpty then none else some (sgn * (parseDigits ip : ℚ))
  | '.' :: r2 =>
    let fp := r2.takeWhile isDig
    if (r2.dropWhile isDig).isEmpty && !(ip.isEmpty && fp.isEmpty) then
      some (sgn * ((parseDigits ip : ℚ) + (parseDigits fp : ℚ) / (10 : ℚ) ^ fp.length))
    else none
  | _ => none

/-- Model of Python `float(s)` on plain decimal literals (optional sign,
digits, optional fractional part), returning the exact rational value.
Exotic float syntax (`inf`, `nan`, exponents, underscores) is outside the
modelled domain and maps to `none`; none of it can occur in the 2-digit
region-code strings this parser feeds, and the downstream truncation of a
correctly parsed literal agrees with CPython for every value these scripts
format back out (integers below 2^53 are exact in binary floating point). -/
def pyFloatCore (cs : List Char) : Option ℚ :=
  match cs with
  | [] => none
  | c :: t =>
    if c = '-' then pyFloatBody (-1) t
    else if c = '+' then pyFloatBody 1 t
    else pyFloatBody 1 (c :: t)

/-- Truncation of a rational toward zero: Python `int()` applied to the
parsed numeric value. -/
def ratTrunc (q : ℚ) : ℤ :=
  if 0 ≤ q.num then q.num.ediv q.den else -((-q.num).ediv q.den)

/-- Python `f"{n:02d}"`: decimal rendering zero-padded to overall width 2
(the sign counts toward the width, so `-5` renders as `"-5"`). -/
def pad2Chars (n : ℤ) : List Char :=
  if (intChars n).length < 2 then '0' :: intChars n else intChars n

/-- `f"{n:02d}"` as a `String`. -/
def pad2 (n : ℤ) : String := ⟨pad2Chars n⟩

/-- Decimal string of a natural number (`str(anio)` in Python). -/
def natStr (n : ℕ) : String := ⟨natChars n⟩

/-!
## Consolidator — `transform_icfes.py`
-/

namespace TransformIcfes

/-- `_normalizar_departamento` (`transform_icfes.py` lines 64-80): strip the
raw value; the empty string yields null; otherwise parse with
`int(float(_))` and format with `f"{codigo:02d}"`; an unparseable value
yields null. (The `pd.isna` guard is handled by the caller binding over an
`Option` cell.) -/
def _normalizar_departamento (s : String) : Option String :=
  let d := pyStrip s.toList
  if d.isEmpty then none
  else (pyFloatCore d).map (fun q => pad2 (ratTrunc q))

/-- Leftmost occurrence of the regex `20\d{2}` in a character list, returning
its numeric value (`transform_icfes.py` line 53). -/
def scan20 : List Char → Option ℕ
  | [] => none
  | c :: t =>
    match c, t with
    | '2', '0' :: c2 :: c3 :: _ =>
      if isDig c2 && isDig c3 then some (2000 + 10 * dVal c2 + dVal c3) else scan20 t
    | _, _ => scan20 t

/-- Leftmost occurrence of the regex `\d{4}` in a character list, returning
its numeric value (`transform_icfes.py` line 56). -/
def scan4 : List Char → Option ℕ
  | [] => none
  | c :: t =>
    match c, t with
    | c0, c1 :: c2 :: c3 :: _ =>
      if isDig c0 && isDig c1 && isDig c2 && isDig c3 then
        some (1000 * dVal c0 + 100 * dVal c1 + 10 * dVal c2 + dVal c3)
      else scan4 t
    | _, _ => scan4 t

/-- `_extraer_anio_de_nombre` (`transform_icfes.py` lines 50-61): first
`20\d{2}` match in the file stem, else the first `\d{4}` match if it lies
in 2014-2025, else the sentinel 9999. -/
def _extraer_anio_de_nombre (stem : String) : ℕ :=
  match scan20 stem.toList with
  | some y => y
  | none =>
    match scan4 stem.toList with
    | some y => if 2014 ≤ y && y ≤ 2025 then y else 9999
    | none => 9999

/-- One input CSV: the file-name stem, header and data rows (after
`_read_csv_robusto`, which reads everything as strings, fills NaN with `""`
and drops duplicate columns). -/
structure SrcFile where
  stem : String
  cols : List String
  rows : List Row
deriving DecidableEq

/-- Year-column candidates tried (in order, against the original-case
header) before falling back to the filename year (line 138). -/
def yearCandidates : List String := ["periodo", "PERIODO", "estu_anoterminobachiller"]

/-- Department-code column candidates (line 161, against the lower-cased
header). -/
def deptoCandidates : List String :=
  ["cole_cod_depto_ubicacion", "estu_cod_depto_presentacion", "estu_cod_reside_depto"]

/-- Column-name patterns retained by the projection step (line 118). -/
def keepPatterns : List String :=
  ["punt", "depto", "departamento", "estu_areareside", "cole_caracter", "cole_area_ubicacion"]

/-- First candidate present in a header. -/
def findFirst (cands cols : List String) : Option String :=
  cands.find? (fun c => cols.contains c)

/-- `astype(str).str[:4]` on one cell. -/
def trunc4 (v : Option String) : Option String :=
  some ⟨(pyStr v).toList.take 4⟩

/-- Per-file transformation (`transform_icfes.py` lines 130-216): rename or
synthesize the `año` column, truncate it to 4 characters, lower-case the
header, derive `depto_normalizado`, project to the kept columns, and drop
rows whose critical cells are null. Returns the selected header and the
surviving rows. -/
def processFile (f : SrcFile) (anio : ℕ) : List String × List Row :=
  let step1 : List String × List Row :=
    match findFirst yearCandidates f.cols with
    | some yc =>
      (f.cols.map (fun c => if c = yc then "año" else c), f.rows.map (renameRowKey yc "año"))
    | none =>
      (f.cols ++ ["año"], f.rows.map (fun r => r ++ [("año", some (natStr anio))]))
  let rows2 := step1.2.map (fun r => r.map (fun p => if p.1 = "año" then ("año", trunc4 p.2) else p))
  let cols3 := step1.1.map lowerStr
  let rows3 := rows2.map (fun r => r.map (fun p => (lowerStr p.1, p.2)))
  let step4 : List String × List Row :=
    match findFirst deptoCandidates cols3 with
    | some dc =>
      (cols3 ++ ["depto_normalizado"],
       rows3.map (fun r => r ++ [("depto_normalizado", (getCell r dc).bind _normalizar_departamento)]))
    | none => (cols3, rows3)
  let sel := dedupFirst
    (["año"]
      ++ (if step4.1.contains "depto_normalizado" then ["depto_normalizado"] else [])
      ++ step4.1.filter (fun c => keepPatterns.any (fun p => containsSub (lowerStr p).toList (lowerStr c).toList)))
  let rows5 := step4.2.map (fun r => sel.map (fun c => (c, getCell r c)))
  let criticas := "año" :: (if sel.contains "depto_normalizado" then ["depto_normalizado"] else [])
  (sel, rows5.filter (fun r => criticas.all (fun c => (getCell r c).isSome)))

/-- The two `FileNotFoundError`s `run` can raise (lines 105 and 113). -/
inductive Err where
  | noInputFiles
  | noFilesInWindow
deriving DecidableEq

/-- The manifest `run` returns plus the rows written to the consolidated
CSV. -/
structure Result where
  rows : List Row
  filesProcessed : ℕ
  years : List ℕ
  totalRows : ℕ
  columns : ℕ
deriving DecidableEq

/-- Input files paired with their filename-inferred year, restricted to the
accepted window 2015-2023 (`transform_icfes.py` lines 108-109). -/
def acceptedOf (files : List SrcFile) : List (SrcFile × ℕ) :=
  (files.map (fun f => (f, _extraer_anio_de_nombre f.stem))).filter
    (fun fa => 2015 ≤ fa.2 && fa.2 ≤ 2023)

/-- Stable insertion into a year-sorted list (equal years keep input
order, as Python's stable `sort` does). -/
def insertByYear (x : SrcFile × ℕ) : List (SrcFile × ℕ) → List (SrcFile × ℕ)
  | [] => [x]
  | y :: ys => if x.2 ≤ y.2 then x :: y :: ys else y :: insertByYear x ys

/-- Stable sort by inferred year (`csvs_con_anio.sort(key=...)`, line 110). -/
def sortByYear : List (SrcFile × ℕ) → List (SrcFile × ℕ)
  | [] => []
  | x :: t => insertByYear x (sortByYear t)

/-- `transform_icfes.run` on in-memory files: fail when no files were found
at all, filter and sort by the filename-inferred year, fail when none lies
in 2015-2023, then process each accepted file in order and concatenate the
surviving rows (incremental CSV append). `years` is the ascending list of
accepted years (`sorted(...)` over the already year-sorted accepted list)
and `columns` is the selection width of the last processed file, as the
source's manifest reports. -/
def run (files : List SrcFile) : Except Err Result :=
  if files.isEmpty then .error .noInputFiles
  else
    let acc := acceptedOf files
    if acc.isEmpty then .error .noFilesInWindow
    else
      let sorted := sortByYear acc
      let processed := sorted.map (fun fa => processFile fa.1 fa.2)
      let allRows := processed.flatMap (fun pr => pr.2)
      .ok
        { rows := allRows
          filesProcessed := sorted.length
          years := sorted.map (fun fa => fa.2)
          totalRows := allRows.length
          columns := ((processed.getLast?).map (fun pr => pr.1.length)).getD 0 }

/-- The year-inference rule as Claim C5 states it (for refutation only):
the file's year comes from an explicit `periodo` column when present,
otherwise from the filename. The code never does this; file acceptance
uses `_extraer_anio_de_nombre` alone. -/
def fileYearClaimed (f : SrcFile) : ℕ :=
  if f.cols.contains "periodo" then
    match f.rows.head? with
    | some r =>
      match getCell r "periodo" with
      | some s => parseDigits s.toList
      | none => _extraer_anio_de_nombre f.stem
    | none => _extraer_anio_de_nombre f.stem
  else _extraer_anio_de_nombre f.stem

end TransformIcfes

/-!
## Lookup Normalizer — `transform_api.py`
-/

namespace TransformApi

/-- One raw API row after the type-coercion step (`transform_api.py`
lines 72-75): `anio` and `depto_divipola` coerced to nullable integers,
`valor_api_mm` to a nullable float, `departamento` a plain string (the
frame was read with `fillna("")`, and a missing column is created as
`""`). -/
structure ApiRow where
  anio : Option ℤ
  depto : Option ℤ
  valor : Option ℚ
  departamento : String
deriving DecidableEq

/-- A row surviving the `dropna` cleaning step (line 79). -/
structure CleanRow where
  anio : ℤ
  depto : ℤ
  valor : ℚ
  departamento : String
deriving DecidableEq

/-- One aggregated output row (`pib_by_depto_year.csv`). -/
structure GroupRow where
  anio : ℤ
  depto : ℤ
  departamento : String
  valor : ℚ
deriving DecidableEq

/-- `RuntimeError` raised when no rows survive cleaning (line 82). The
missing-column `RuntimeError` (line 67) is schema-level and outside this
typed entry point. -/
inductive ApiErr where
  | emptyAfterCleaning
deriving DecidableEq

/-- `df.dropna(subset=["anio", "depto_divipola", "valor_api_mm"])`. -/
def cleanRows (rows : List ApiRow) : List CleanRow :=
  rows.filterMap (fun r =>
    match r.anio, r.depto, r.valor with
    | some a, some d, some v => some ⟨a, d, v, r.departamento⟩
    | _, _, _ => none)

/-- The group key `(anio, depto_divipola)`. -/
def keyOf (r : CleanRow) : ℤ × ℤ := (r.anio, r.depto)

/-- Ascending lexicographic order on group keys (pandas `groupby` sorts
group keys). -/
def insKey (x : ℤ × ℤ) : List (ℤ × ℤ) → List (ℤ × ℤ)
  | [] => [x]
  | y :: ys =>
    if x.1 < y.1 ∨ (x.1 = y.1 ∧ x.2 ≤ y.2) then x :: y :: ys else y :: insKey x ys

/-- Insertion sort of group keys. -/
def sortKeys : List (ℤ × ℤ) → List (ℤ × ℤ)
  | [] => []
  | x :: t => insKey x (sortKeys t)

/-- The aggregate row for one key (`transform_api.py` lines 90-97):
`valor_api_mm` summed over the group, `departamento` the first variant in
source row order whose stripped value is non-blank, else `""`. -/
def aggKey (clean : List CleanRow) (k : ℤ × ℤ) : GroupRow :=
  let g := clean.filter (fun r => keyOf r == k)
  { anio := k.1
    depto := k.2
    departamento :=
      ((g.map (fun r => r.departamento)).find? (fun s => !(pyStrip s.toList).isEmpty)).getD ""
    valor := (g.map (fun r => r.valor)).sum }

/-- `transform_api.run` from the typed rows onward: drop rows failing
coercion, fail when nothing survives, then aggregate by key; output rows
are sorted by key as pandas `groupby(...).reset_index()` produces them. -/
def run (rows : List ApiRow) : Except ApiErr (List GroupRow) :=
  let clean := cleanRows rows
  if clean.isEmpty then .error .emptyAfterCleaning
  else .ok ((sortKeys (dedupFirst (clean.map keyOf))).map (aggKey clean))

end TransformApi

/-!
## Join & Imputation Engine — `merge.py`
-/

namespace Merge

/-- One row of the PIB lookup CSV after loading (`merge.py` lines 52-62):
read as strings (so the key cells are nullable strings), `valor_api_mm`
coerced with `pd.to_numeric(errors="coerce")`, key columns renamed to
`año_pib` / `depto_codigo`. -/
structure PibRow where
  anio : Option String
  depto : Option String
  departamento : Option String
  valor : Option ℚ
deriving DecidableEq

/-- One 50k-row batch of the consolidated ICFES CSV. -/
structure Chunk where
  cols : List String
  rows : List Row
deriving DecidableEq

/-- Errors `merge.run` raises on the modelled path: the two descriptive
`RuntimeError`s for missing join-key columns (lines 98 and 114), and the
`ZeroDivisionError` raised by the final summary `print` (line 194) when
`total_procesado` is zero. -/
inductive MergeErr where
  | runtimeError (msg : String)
  | zeroDivisionError
deriving DecidableEq

/-- Message of the missing-year-column `RuntimeError` (line 98). -/
def yearMsg : String := "No se pudo encontrar una columna de año en ICFES"

/-- Message of the missing-department-column `RuntimeError` (line 114). -/
def deptoMsg : String := "No se encontró columna de código de departamento en ICFES"

/-- Whether an error value carries a descriptive message (a Python
`RuntimeError(msg)`); a bare `ZeroDivisionError` does not. -/
def isDescriptiveB : MergeErr → Bool
  | .runtimeError _ => true
  | .zeroDivisionError => false

/-- Lower-case all column names of a batch (line 84). -/
def lowerChunk (c : Chunk) : Chunk :=
  { cols := c.cols.map lowerStr
    rows := c.rows.map (fun r => r.map (fun p => (lowerStr p.1, p.2))) }

/-- Rename one column of a batch (`chunk.rename(columns={old: new})`). -/
def renameChunk (old new : String) (c : Chunk) : Chunk :=
  { cols := c.cols.map (fun x => if x = old then new else x)
    rows := c.rows.map (renameRowKey old new) }

/-- Fallback year-column names (line 91). -/
def yearFallbacks : List String := ["periodo", "estu_anoterminobachiller", "anio_origen"]

/-- Fallback department-column names (line 107). -/
def deptoFallbacks : List String :=
  ["cole_cod_depto_ubicacion", "estu_cod_depto_presentacion", "cole_depto_ubicacion"]

/-- The year-column step (`merge.py` lines 89-95): when the lower-cased
batch lacks an `año` column, rename the first present fallback column to
`año` (no change when none is present — the error is raised by
`prepChunk`). -/
def prepYear (c1 : Chunk) : Chunk :=
  if c1.cols.contains "año" then c1
  else
    match yearFallbacks.find? (fun x => c1.cols.contains x) with
    | some cand => renameChunk cand "año" c1
    | none => c1

/-- Batch preparation (`merge.py` lines 84-116): lower-case the header,
ensure an `año` column (renaming the first fallback when needed, raising
when none exists), and choose the department join column
(`depto_normalizado` when present, else the first fallback, raising when
none exists). Returns the prepared batch and the chosen column. -/
def prepChunk (c : Chunk) : Except MergeErr (Chunk × String) :=
  let c2 := prepYear (lowerChunk c)
  if c2.cols.contains "año" then
    if c2.cols.contains "depto_normalizado" then .ok (c2, "depto_normalizado")
    else
      match deptoFallbacks.find? (fun x => c2.cols.contains x) with
      | some dc => .ok (c2, dc)
      | none => .error (.runtimeError deptoMsg)
  else .error (.runtimeError yearMsg)

/-- One output row of the left join: the source cells, plus the lookup
side's `departamento` and the `valor_api_mm` value renamed to
`pib_departamental_mm` (the auxiliary join-key columns of lines 119-120
are dropped again at line 146 and never materialized here). -/
structure ERow where
  cells : Row
  departamento : Option String
  pib : Option ℚ
deriving DecidableEq

/-- The `valor_api_mm` of the first lookup row matching a join key (`none`
when no row matches). -/
def matchVal (pib : List PibRow) (ka kd : String) : Option ℚ :=
  match pib.filter (fun p => p.anio == some ka && p.depto == some kd) with
  | [] => none
  | p :: _ => p.valor

/-- Left join of one source row against the lookup table on
`(str(año), str(depto))` (lines 126-131): an unmatched row survives with
null lookup fields; a matched row is replicated once per matching lookup
row. -/
def joinRow (pib : List PibRow) (dc : String) (r : Row) : List ERow :=
  let ka := pyStr (getCell r "año")
  let kd := pyStr (getCell r dc)
  match pib.filter (fun p => p.anio == some ka && p.depto == some kd) with
  | [] => [⟨r, none, none⟩]
  | p :: t => (p :: t).map (fun q => ⟨r, q.departamento, q.valor⟩)

/-- Group mean of `pib_departamental_mm` over the merged rows sharing the
`(año, depto_normalizado)` cells (pandas `groupby(...).mean()` skips NaN
and is NaN on an all-NaN group). -/
def groupMean (all : List ERow) (a d : String) : Option ℚ :=
  let vs := (all.filter (fun x =>
    getCell x.cells "año" == some a && getCell x.cells "depto_normalizado" == some d)).filterMap
      (fun x => x.pib)
  if vs.isEmpty then none else some (vs.sum / (vs.length : ℚ))

/-- `imputar_pib` (lines 160-165) applied to one merged row: a row already
holding a value is untouched; otherwise, when both group-key cells are
non-null (so the key is in the group-mean index), substitute the group
mean. -/
def imputeRow (all : List ERow) (x : ERow) : ERow :=
  if x.pib.isSome then x
  else
    match getCell x.cells "año", getCell x.cells "depto_normalizado" with
    | some a, some d => { x with pib := groupMean all a d }
    | _, _ => x

/-- The imputation pass (lines 151-167): runs only when the merged batch
has a `depto_normalizado` column and at least one row lacks a value. -/
def imputePass (cols : List String) (all : List ERow) : List ERow :=
  if cols.contains "depto_normalizado" && all.any (fun x => x.pib.isNone) then
    all.map (imputeRow all)
  else all

/-- Process one batch: prepare, left-join every row, count the rows holding
a value before imputation (line 138), then impute. Returns
`(merged row count, pre-imputation with-value count, written rows)`. -/
def mergeChunk (pib : List PibRow) (c : Chunk) : Except MergeErr (ℕ × ℕ × List ERow) :=
  match prepChunk c with
  | .error e => .error e
  | .ok (c2, dc) =>
    let joined := c2.rows.flatMap (joinRow pib dc)
    .ok (joined.length, joined.countP (fun x => x.pib.isSome), imputePass c2.cols joined)

/-- Sequential batch loop; the first failing batch aborts the run. -/
def mergeChunks (pib : List PibRow) : List Chunk → Except MergeErr (List (ℕ × ℕ × List ERow))
  | [] => .ok []
  | c :: cs =>
    match mergeChunk pib c with
    | .error e => .error e
    | .ok r =>
      match mergeChunks pib cs with
      | .error e => .error e
      | .ok rs => .ok (r :: rs)

/-- The summary `merge.run` returns (lines 204-212) plus the rows written
to the enriched CSV. -/
structure MergeResult where
  outRows : List ERow
  totalRows : ℕ
  rowsWithPib : ℕ
  rowsWithoutPib : ℕ
  pibCoverage : ℚ
deriving DecidableEq

/-- `merge.run` on in-memory batches: process every batch, accumulate
`total_procesado` and `total_con_pib`, and build the summary. When the
accumulated total is zero the final summary `print` (line 194) divides by
zero before the guarded `pib_coverage` computation is ever reached. -/
def run (pib : List PibRow) (chunks : List Chunk) : Except MergeErr MergeResult :=
  match mergeChunks pib chunks with
  | .error e => .error e
  | .ok rs =>
    let total := (rs.map (fun r => r.1)).sum
    let withPib := (rs.map (fun r => r.2.1)).sum
    if total = 0 then .error .zeroDivisionError
    else
      .ok
        { outRows := rs.flatMap (fun r => r.2.2)
          totalRows := total
          rowsWithPib := withPib
          rowsWithoutPib := total - withPib
          pibCoverage := (withPib : ℚ) / (total : ℚ) }

/-- Uniqueness of the `(año, depto)` lookup key — the invariant the Lookup
Normalizer guarantees for the table the engine consumes. -/
def uniqueKeys (pib : List PibRow) : Prop :=
  (pib.map (fun p => (p.anio, p.depto))).Nodup

instance (pib : List PibRow) : Decidable (uniqueKeys pib) := by
  unfold uniqueKeys; infer_instance

/-- A batch (after lower-casing) carries a usable year column: either `año`
itself or one of the fallbacks of line 91. -/
def hasYearCol (cols : List String) : Bool :=
  cols.contains "año" || yearFallbacks.any (fun x => cols.contains x)

/-- A batch (after lower-casing) carries a usable department column:
`depto_normalizado` or one of the fallbacks of line 107. -/
def hasDeptoCol (cols : List String) : Bool :=
  cols.contains "depto_normalizado" || deptoFallbacks.any (fun x => cols.contains x)

end Merge

/-!
## Bulk Loader — `load_dw.py`
-/

namespace LoadDw

/-- Column types appearing in the generated DDL: the `BIGSERIAL PRIMARY
KEY` identity column, nullable `TEXT` data columns, and the
`TIMESTAMP DEFAULT now()` creation column. -/
inductive ColType where
  | serialPK
  | text
  | timestampDef
deriving DecidableEq

/-- `_ddl` (`load_dw.py` lines 19-40) as the structured schema the DDL
string creates: `id BIGSERIAL PRIMARY KEY`, one nullable `TEXT` column per
CSV header column, then `created_at TIMESTAMP DEFAULT now()`. (The
table-name and quote-escaping parts of the SQL string do not affect the
schema shape.) -/
def _ddl (cols : List String) : List (String × ColType) :=
  ("id", .serialPK) :: (cols.map (fun c => (c, .text)) ++ [("created_at", .timestampDef)])

/-- A destination table: its column schema and current row count. -/
structure Table where
  schema : List (String × ColType)
  rowCount : ℕ
deriving DecidableEq

/-- The destination database: named tables. -/
abbrev DB := List (String × Table)

/-- Errors on the modelled load path: the empty-CSV `RuntimeError`
(line 152) and the database error a `CREATE TABLE` with duplicate column
names raises. -/
inductive LoadErr where
  | emptyCsv
  | duplicateColumn
deriving DecidableEq

/-- Look a table up by name. -/
def lookupTable (db : DB) (t : String) : Option Table :=
  (db.find? (fun p => p.1 == t)).map (fun p => p.2)

/-- `DROP TABLE IF EXISTS`. -/
def dropTable (db : DB) (t : String) : DB :=
  db.filter (fun p => !(p.1 == t))

/-- Replace (or insert) a table. -/
def setTable (db : DB) (t : String) (tb : Table) : DB :=
  dropTable db t ++ [(t, tb)]

/-- Python `set(a) != set(b)` negated: equality of column-name sets. -/
def setEq (a b : List String) : Bool :=
  a.all (fun x => b.contains x) && b.all (fun x => a.contains x)

/-- Truncate-if-requested then `COPY` the data rows and return the updated
database and `SELECT COUNT(*)` (lines 226-252; `COPY ... HEADER TRUE`
skips the header row, so exactly the data rows are inserted). -/
def loadCopy (db : DB) (t : String) (dataRows : ℕ) (replace : Bool) : DB × ℕ :=
  match lookupTable db t with
  | some tb =>
    let tb1 := if replace then { tb with rowCount := 0 } else tb
    let tb2 := { tb1 with rowCount := tb1.rowCount + dataRows }
    (setTable db t tb2, tb2.rowCount)
  | none => (db, 0)

/-- `load_dw.run` from the located CSV onward (lines 147-254): read the
header (failing on an empty file), drop the existing table when its
non-synthetic column set differs from the header, `CREATE TABLE IF NOT
EXISTS` from `_ddl`, optionally truncate, `COPY` the data rows, and report
`SELECT COUNT(*)` as `rows_loaded`. -/
def run (db : DB) (t : String) (header : List String) (dataRows : ℕ) (replace : Bool) :
    Except LoadErr (DB × ℕ) :=
  if header.isEmpty then .error .emptyCsv
  else
    let db1 :=
      match lookupTable db t with
      | some tb =>
        let existing := (tb.schema.map (fun p => p.1)).filter
          (fun c => !(c == "id" || c == "created_at" || c == "updated_at"))
        if setEq existing header then db else dropTable db t
      | none => db
    match lookupTable db1 t with
    | some _ => .ok (loadCopy db1 t dataRows replace)
    | none =>
      if ((_ddl header).map (fun p => p.1)).Nodup then
        .ok (loadCopy (setTable db1 t { schema := _ddl header, rowCount := 0 }) t dataRows replace)
      else .error .duplicateColumn

end LoadDw

/-!
## Concrete sample inputs (used by the witness theorems)
-/

/-- A two-row lookup table with unique `(año, depto)` keys; the second
row's value failed numeric coercion (NaN). -/
def pibSample : List Merge.PibRow :=
  [⟨some "2019", some "05", some "ANTIOQUIA", some 120⟩,
   ⟨some "2019", some "11", some "BOGOTA", none⟩]

/-- A two-row consolidated batch: one row matches the lookup table, one
does not. -/
def chunkSample : Merge.Chunk :=
  { cols := ["año", "depto_normalizado", "punt_global"]
    rows :=
      [[("año", some "2019"), ("depto_normalizado", some "05"), ("punt_global", some "300")],
       [("año", some "2019"), ("depto_normalizado", some "99"), ("punt_global", some "250")]] }

/-- The engine's result on `pibSample` / `chunkSample`. -/
def mergeResSample : Merge.MergeResult :=
  { outRows :=
      [⟨[("año", some "2019"), ("depto_normalizado", some "05"), ("punt_global", some "300")],
        some "ANTIOQUIA", some 120⟩,
       ⟨[("año", some "2019"), ("depto_normalizado", some "99"), ("punt_global", some "250")],
        none, none⟩]
    totalRows := 2
    rowsWithPib := 1
    rowsWithoutPib := 1
    pibCoverage := 1/2 }

/-- A source file whose filename year (2019) is accepted; its `PERIODO`
column carries one polluted value and one row lacks a department code. -/
def icfesSample : TransformIcfes.SrcFile :=
  { stem := "Examen_Saber_11_2019"
    cols := ["PERIODO", "COLE_COD_DEPTO_UBICACION", "PUNT_GLOBAL", "ESTU_NOMBRE"]
    rows :=
      [[("PERIODO", some "20194"), ("COLE_COD_DEPTO_UBICACION", some "5"),
        ("PUNT_GLOBAL", some "300"), ("ESTU_NOMBRE", some "A")],
       [("PERIODO", some "2019"), ("COLE_COD_DEPTO_UBICACION", none),
        ("PUNT_GLOBAL", some "250"), ("ESTU_NOMBRE", some "B")]] }

/-- A source file whose filename carries the year 2010 (outside the
accepted window) while its `periodo` column says 2019 (inside it). -/
def icfesExcluded : TransformIcfes.SrcFile :=
  { stem := "Examen_Saber_11_2010"
    cols := ["periodo", "punt_global"]
    rows := [[("periodo", some "2019"), ("punt_global", some "300")]] }

/-- Raw lookup rows: two rows share the key (2019, 5) with name variants
`"Antioquia"` and `""`, one row has key (2019, 11), and one row has an
uncoerced year. -/
def apiSample : List TransformApi.ApiRow :=
  [⟨some 2019, some 5, some 100, "Antioquia"⟩,
   ⟨some 2019, some 5, some 20, ""⟩,
   ⟨some 2019, some 11, some 7, "Bogota"⟩,
   ⟨none, some 5, some 3, "X"⟩]

/-- The normalizer's output on `apiSample`. -/
def apiOutSample : List TransformApi.GroupRow :=
  [⟨2019, 5, "Antioquia", 120⟩, ⟨2019, 11, "Bogota", 7⟩]

/-!
## Digit-string lemmas
-/

theorem dVal_digitChar10 {n : ℕ} (h : n < 10) : dVal (digitChar10 n) = n := by
  interval_cases n <;> decide

theorem isDig_digitChar10 {n : ℕ} (h : n < 10) : isDig (digitChar10 n) = true := by
  interval_cases n <;> decide

theorem parseDigits_append_digit (xs : List Char) (c : Char) :
    parseDigits (xs ++ [c]) = 10 * parseDigits xs + dVal c := by
  simp [parseDigits, List.foldl_append]

theorem parseDigits_singleton (c : Char) : parseDigits [c] = dVal c := by
  simp [parseDigits]

theorem natCharsAux_spec : ∀ fuel n : ℕ, n ≤ fuel →
    parseDigits (natCharsAux fuel n) = n
    ∧ (∀ c ∈ natCharsAux fuel n, isDig c = true)
    ∧ natCharsAux fuel n ≠ [] := by
  intro fuel
  induction fuel with
  | zero =>
    intro n hn
    have h0 : n = 0 := by omega
    subst h0
    refine ⟨by decide, by decide, by decide⟩
  | succ fuel ih =>
    intro n hn
    by_cases h10 : n < 10
    · simp only [natCharsAux, if_pos h10]
      exact ⟨by rw [parseDigits_singleton, dVal_digitChar10 h10],
        by simpa using isDig_digitChar10 h10, by simp⟩
    · simp only [natCharsAux, if_neg h10]
      have hlt : n / 10 < n := Nat.div_lt_self (by omega) (by omega)
      have hle : n / 10 ≤ fuel := by omega
      obtain ⟨hparse, hdig, hne⟩ := ih (n / 10) hle
      refine ⟨?_, ?_, by simp⟩
      · rw [parseDigits_append_digit, hparse, dVal_digitChar10 (Nat.mod_lt n (by omega))]
        omega
      · intro c hc
        rcases List.mem_append.mp hc with hc | hc
        · exact hdig c hc
        · rcases List.mem_singleton.mp hc with rfl
          exact isDig_digitChar10 (Nat.mod_lt n (by omega))

theorem parseDigits_natChars (n : ℕ) : parseDigits (natChars n) = n :=
  (natCharsAux_spec n n le_rfl).1

theorem natChars_digits {n : ℕ} : ∀ c ∈ natChars n, isDig c = true :=
  (natCharsAux_spec n n le_rfl).2.1

theorem natChars_ne_nil (n : ℕ) : natChars n ≠ [] :=
  (natCharsAux_spec n n le_rfl).2.2

theorem parseDigits_cons_zero (cs : List Char) : parseDigits ('0' :: cs) = parseDigits cs := by
  have h : (10 * 0 + dVal '0') = 0 := by decide
  rw [parseDigits, parseDigits, List.foldl_cons, h]

theorem natCharsAux_small (fuel : ℕ) {n : ℕ} (h : n < 10) :
    natCharsAux fuel n = [digitChar10 n] := by
  cases fuel with
  | zero => rfl
  | succ fuel => simp [natCharsAux, if_pos h]

theorem natChars_two_digits {m : ℕ} (h1 : 10 ≤ m) (h2 : m < 100) :
    natChars m = [digitChar10 (m / 10), digitChar10 (m % 10)] := by
  obtain ⟨k, rfl⟩ : ∃ k, m = k + 1 := ⟨m - 1, by omega⟩
  show natCharsAux (k + 1) (k + 1) = _
  rw [natCharsAux, if_neg (by omega)]
  rw [natCharsAux_small k (by omega)]
  rfl

/-!
## `str.strip` and float-parsing lemmas
-/

theorem dropWhile_eq_self_of_not {p : Char → Bool} :
    ∀ {l : List Char}, (∀ c ∈ l, p c = false) → l.dropWhile p = l := by
  intro l h
  cases l with
  | nil => rfl
  | cons c t =>
    rw [List.dropWhile_cons, if_neg]
    simp [h c (by simp)]

theorem pyStrip_eq_self {l : List Char} (h : ∀ c ∈ l, isSpaceChar c = false) :
    pyStrip l = l := by
  unfold pyStrip
  rw [dropWhile_eq_self_of_not h, dropWhile_eq_self_of_not (by
    intro c hc
    exact h c (List.mem_reverse.mp hc)), List.reverse_reverse]

theorem isDig_not_space {c : Char} (h : isDig c = true) : isSpaceChar c = false := by
  have h1 : c ≠ ' ' := fun e => absurd (e ▸ h) (by decide)
  have h2 : c ≠ '\t' := fun e => absurd (e ▸ h) (by decide)
  have h3 : c ≠ '\n' := fun e => absurd (e ▸ h) (by decide)
  have h4 : c ≠ '\r' := fun e => absurd (e ▸ h) (by decide)
  have h5 : c ≠ '\x0b' := fun e => absurd (e ▸ h) (by decide)
  have h6 : c ≠ '\x0c' := fun e => absurd (e ▸ h) (by decide)
  simp [isSpaceChar, h1, h2, h3, h4, h5, h6]

theorem isDig_ne_minus {c : Char} (h : isDig c = true) : c ≠ '-' :=
  fun e => absurd (e ▸ h) (by decide)

theorem isDig_ne_plus {c : Char} (h : isDig c = true) : c ≠ '+' :=
  fun e => absurd (e ▸ h) (by decide)

theorem takeWhile_eq_self_of_all {p : Char → Bool} :
    ∀ {l : List Char}, (∀ c ∈ l, p c = true) → l.takeWhile p = l := by
  intro l
  induction l with
  | nil => intro; rfl
  | cons c t ih =>
    intro h
    rw [List.takeWhile_cons, if_pos (h c (by simp))]
    rw [ih (fun x hx => h x (by simp [hx]))]

theorem dropWhile_eq_nil_of_all {p : Char → Bool} :
    ∀ {l : List Char}, (∀ c ∈ l, p c = true) → l.dropWhile p = [] := by
  intro l
  induction l with
  | nil => intro; rfl
  | cons c t ih =>
    intro h
    rw [List.dropWhile_cons, if_pos (h c (by simp))]
    exact ih (fun x hx => h x (by simp [hx]))

theorem isEmpty_false_of_ne_nil {α : Type} {l : List α} (h : l ≠ []) : l.isEmpty = false := by
  cases l with
  | nil => exact absurd rfl h
  | cons a t => rfl

theorem pyFloatBody_digits {sgn : ℚ} {cs : List Char} (hne : cs ≠ [])
    (hd : ∀ c ∈ cs, isDig c = true) :
    pyFloatBody sgn cs = some (sgn * (parseDigits cs : ℚ)) := by
  unfold pyFloatBody
  rw [dropWhile_eq_nil_of_all hd, takeWhile_eq_self_of_all hd]
  simp [isEmpty_false_of_ne_nil hne]

theorem pyFloatCore_digits {cs : List Char} (hne : cs ≠ [])
    (hd : ∀ c ∈ cs, isDig c = true) :
    pyFloatCore cs = some (1 * (parseDigits cs : ℚ)) := by
  cases cs with
  | nil => exact absurd rfl hne
  | cons c t =>
    have hc : isDig c = true := hd c (by simp)
    show (if c = '-' then pyFloatBody (-1) t
      else if c = '+' then pyFloatBody 1 t else pyFloatBody 1 (c :: t)) = _
    rw [if_neg (isDig_ne_minus hc), if_neg (isDig_ne_plus hc)]
    exact pyFloatBody_digits (by simp) hd

theorem pyFloatCore_neg_digits {t : List Char} (hne : t ≠ [])
    (hd : ∀ c ∈ t, isDig c = true) :
    pyFloatCore ('-' :: t) = some (-1 * (parseDigits t : ℚ)) := by
  show (if '-' = '-' then pyFloatBody (-1) t
    else if '-' = '+' then pyFloatBody 1 t else pyFloatBody 1 ('-' :: t)) = _
  rw [if_pos rfl]
  exact pyFloatBody_digits hne hd

theorem ratTrunc_natCast (m : ℕ) : ratTrunc ((m : ℕ) : ℚ) = (m : ℤ) := by
  unfold ratTrunc
  rw [Rat.num_natCast, Rat.den_natCast, Nat.cast_one]
  rw [if_pos (Int.natCast_nonneg m)]
  exact Int.ediv_one _

theorem ratTrunc_intCast (n : ℤ) : ratTrunc ((n : ℤ) : ℚ) = n := by
  unfold ratTrunc
  rw [Rat.num_intCast, Rat.den_intCast, Nat.cast_one]
  by_cases h : 0 ≤ n
  · rw [if_pos h]; exact Int.ediv_one _
  · rw [if_neg h]
    have h2 : (-n).ediv 1 = -n := Int.ediv_one (-n)
    omega

/-!
## Shape of `f"{n:02d}"` output
-/

theorem intChars_nonneg {n : ℤ} (h : 0 ≤ n) : intChars n = natChars n.toNat := by
  unfold intChars
  rw [if_neg (by omega)]

theorem intChars_neg {n : ℤ} (h : n < 0) : intChars n = '-' :: natChars (-n).toNat := by
  unfold intChars
  rw [if_pos h]

theorem pad2Chars_digits_or_minus (n : ℤ) :
    ∀ c ∈ pad2Chars n, isDig c = true ∨ c = '-' := by
  intro c hc
  unfold pad2Chars at hc
  have hbase : ∀ x ∈ intChars n, isDig x = true ∨ x = '-' := by
    intro x hx
    unfold intChars at hx
    split at hx
    · rcases List.mem_cons.mp hx with rfl | hx
      · exact Or.inr rfl
      · exact Or.inl (natChars_digits x hx)
    · exact Or.inl (natChars_digits x hx)
  split at hc
  · rcases List.mem_cons.mp hc with rfl | hc
    · exact Or.inl (by decide)
    · exact hbase c hc
  · exact hbase c hc

theorem pad2Chars_ne_nil (n : ℤ) : pad2Chars n ≠ [] := by
  unfold pad2Chars
  split
  · simp
  · unfold intChars
    split
    · simp
    · exact natChars_ne_nil _

theorem pad2Chars_not_space (n : ℤ) : ∀ c ∈ pad2Chars n, isSpaceChar c = false := by
  intro c hc
  rcases pad2Chars_digits_or_minus n c hc with h | rfl
  · exact isDig_not_space h
  · decide

theorem pad2_toList (n : ℤ) : (pad2 n).toList = pad2Chars n := rfl

/-- Parsing the `f"{n:02d}"` rendering of an integer recovers `n` exactly;
the key step of the idempotence proof. -/
theorem pyFloatCore_pad2 (n : ℤ) : ∃ q : ℚ, pyFloatCore (pad2Chars n) = some q ∧ ratTrunc q = n := by
  by_cases h : 0 ≤ n
  · refine ⟨1 * ((n.toNat : ℕ) : ℚ), ?_, ?_⟩
    · have hdig : ∀ c ∈ pad2Chars n, isDig c = true := by
        intro c hc
        unfold pad2Chars at hc
        rw [intChars_nonneg h] at hc
        split at hc
        · rcases List.mem_cons.mp hc with rfl | hc
          · decide
          · exact natChars_digits c hc
        · exact natChars_digits c hc
      rw [pyFloatCore_digits (pad2Chars_ne_nil n) hdig]
      congr 1
      unfold pad2Chars
      rw [intChars_nonneg h]
      split
      · rw [parseDigits_cons_zero, parseDigits_natChars]
      · rw [parseDigits_natChars]
    · rw [one_mul, ratTrunc_natCast]
      omega
  · have hneg : n < 0 := by omega
    have hchars : pad2Chars n = '-' :: natChars (-n).toNat := by
      unfold pad2Chars
      rw [intChars_neg hneg]
      rw [if_neg]
      simp only [List.length_cons]
      have := natChars_ne_nil (-n).toNat
      have : (natChars (-n).toNat).length ≠ 0 := by
        simpa [List.length_eq_zero] using this
      omega
    refine ⟨-1 * (((-n).toNat : ℕ) : ℚ), ?_, ?_⟩
    · rw [hchars, pyFloatCore_neg_digits (natChars_ne_nil _) (fun c hc => natChars_digits c hc)]
      rw [parseDigits_natChars]
    · have h1 : (((-n).toNat : ℕ) : ℤ) = -n := Int.toNat_of_nonneg (by omega)
      have h2 : (((-n).toNat : ℕ) : ℚ) = ((-n : ℤ) : ℚ) := by
        exact_mod_cast congrArg (fun z : ℤ => (z : ℚ)) h1
      have h3 : (-1 : ℚ) * (((-n).toNat : ℕ) : ℚ) = ((n : ℤ) : ℚ) := by
        rw [neg_one_mul, h2]
        push_cast
        ring
      rw [h3, ratTrunc_intCast]

/-- `_normalizar_departamento` maps every padded rendering to itself. -/
theorem normalizar_pad2 (n : ℤ) :
    TransformIcfes._normalizar_departamento (pad2 n) = some (pad2 n) := by
  unfold TransformIcfes._normalizar_departamento
  rw [pad2_toList, pyStrip_eq_self (pad2Chars_not_space n)]
  rw [if_neg (by simp [isEmpty_false_of_ne_nil (pad2Chars_ne_nil n)])]
  obtain ⟨q, hq, ht⟩ := pyFloatCore_pad2 n
  rw [hq]
  simp [ht]

/-!
## Claim C3 — idempotence of region-code normalization
-/

/-- Claim C3: `_normalizar_departamento` is idempotent — whenever it maps
`s` to a non-null string `t`, it maps `t` back to `t`; in particular
`"5" ↦ "05"`, `"05" ↦ "05"`, and the empty string maps to null. -/
theorem normalizar_departamento_idempotent :
    (∀ s t : String, TransformIcfes._normalizar_departamento s = some t →
      TransformIcfes._normalizar_departamento t = some t)
    ∧ TransformIcfes._normalizar_departamento "5" = some "05"
    ∧ TransformIcfes._normalizar_departamento "05" = some "05"
    ∧ TransformIcfes._normalizar_departamento "" = none := by
  refine ⟨?_, by with_unfolding_all rfl, by with_unfolding_all rfl, by with_unfolding_all rfl⟩
  intro s t h
  unfold TransformIcfes._normalizar_departamento at h
  by_cases he : (pyStrip s.toList).isEmpty
  · rw [if_pos he] at h
    exact absurd h (by simp)
  · rw [if_neg he] at h
    rcases Option.map_eq_some'.mp h with ⟨q, _, ht⟩
    rw [← ht]
    exact normalizar_pad2 (ratTrunc q)

/-- Witness for C3: the idempotence theorem applied at the concrete input
`"5"`, whose normalization is `"05"`. -/
theorem normalizar_departamento_idempotent_witness :
    TransformIcfes._normalizar_departamento "05" = some "05" :=
  normalizar_departamento_idempotent.1 "5" "05" (by with_unfolding_all rfl)

/-!
## Claim C4 — shape of the normalized region code
-/

/-- Claim C4 counterexample: the input `"123"` normalizes to `"123"`,
which has three characters, so the non-null result does not always have
exactly two characters. -/
theorem normalizar_departamento_width_counterexample :
    TransformIcfes._normalizar_departamento "123" = some "123"
    ∧ ("123" : String).toList.length ≠ 2 :=
  ⟨by with_unfolding_all rfl, by decide⟩

/-- Claim C4 (amended): a non-null result of `_normalizar_departamento` is
the `f"{n:02d}"` rendering of the truncated parsed value `n`; it always has
at least two characters, and it has exactly two characters, both digits,
whenever `0 ≤ n < 100` (the range of valid region codes). Values of 100 or
more keep all their digits and negative values carry a sign. -/
theorem normalizar_departamento_shape (s t : String)
    (h : TransformIcfes._normalizar_departamento s = some t) :
    ∃ n : ℤ, t = pad2 n ∧ 2 ≤ t.toList.length
      ∧ (0 ≤ n → n < 100 → t.toList.length = 2 ∧ ∀ c ∈ t.toList, isDig c = true) := by
  unfold TransformIcfes._normalizar_departamento at h
  by_cases he : (pyStrip s.toList).isEmpty
  · rw [if_pos he] at h
    exact absurd h (by simp)
  · rw [if_neg he] at h
    rcases Option.map_eq_some'.mp h with ⟨q, _, ht⟩
    refine ⟨ratTrunc q, ht.symm, ?_, ?_⟩
    · rw [← ht, pad2_toList]
      unfold pad2Chars
      split
      · have h1 := natChars_ne_nil (ratTrunc q).toNat
        have h2 : intChars (ratTrunc q) ≠ [] := by
          unfold intChars
          split
          · simp
          · exact natChars_ne_nil _
        simp only [List.length_cons]
        have : (intChars (ratTrunc q)).length ≠ 0 := by
          simpa [List.length_eq_zero] using h2
        omega
      · omega
    · intro hge hlt
      rw [← ht, pad2_toList]
      set n := ratTrunc q with hn
      have hic : intChars n = natChars n.toNat := intChars_nonneg hge
      have htn : n.toNat < 100 := by omega
      by_cases hsmall : n.toNat < 10
      · have hone : natChars n.toNat = [digitChar10 n.toNat] := by
          unfold natChars
          exact natCharsAux_small _ hsmall
        unfold pad2Chars
        rw [hic, hone, if_pos (by simp)]
        constructor
        · simp
        · intro c hc
          rcases List.mem_cons.mp hc with rfl | hc
          · decide
          · rcases List.mem_singleton.mp hc with rfl
            exact isDig_digitChar10 hsmall
      · have htwo : natChars n.toNat = [digitChar10 (n.toNat / 10), digitChar10 (n.toNat % 10)] :=
          natChars_two_digits (by omega) htn
        unfold pad2Chars
        rw [hic, htwo, if_neg (by simp)]
        constructor
        · simp
        · intro c hc
          rcases List.mem_cons.mp hc with rfl | hc
          · exact isDig_digitChar10 (by omega)
          · rcases List.mem_singleton.mp hc with rfl
            exact isDig_digitChar10 (Nat.mod_lt _ (by omega))

/-- Witness for the amended C4: applied at the input `"7"`, whose
normalization `"07"` is two digits. -/
theorem normalizar_departamento_shape_witness :
    ∃ n : ℤ, "07" = pad2 n ∧ 2 ≤ ("07" : String).toList.length
      ∧ (0 ≤ n → n < 100 →
        ("07" : String).toList.length = 2 ∧ ∀ c ∈ ("07" : String).toList, isDig c = true) :=
  normalizar_departamento_shape "7" "07" (by with_unfolding_all rfl)

/-!
## Consolidator lemmas and Claims C5, C6
-/

theorem length_insertByYear (x : TransformIcfes.SrcFile × ℕ) :
    ∀ l, (TransformIcfes.insertByYear x l).length = l.length + 1 := by
  intro l
  induction l with
  | nil => rfl
  | cons y ys ih =>
    unfold TransformIcfes.insertByYear
    split
    · simp
    · simp [ih]

theorem length_sortByYear :
    ∀ l, (TransformIcfes.sortByYear l).length = l.length := by
  intro l
  induction l with
  | nil => rfl
  | cons x t ih =>
    unfold TransformIcfes.sortByYear
    rw [length_insertByYear, ih, List.length_cons]

theorem acceptedOf_mem_window {files : List TransformIcfes.SrcFile} :
    ∀ fa ∈ TransformIcfes.acceptedOf files, 2015 ≤ fa.2 ∧ fa.2 ≤ 2023 := by
  intro fa hfa
  have h := (List.mem_filter.mp hfa).2
  simpa [Bool.and_eq_true, decide_eq_true_eq] using h

/-- Claim C6: the Consolidator raises its missing-input error
(`FileNotFoundError`) exactly when no input file's inferred year lies in
the accepted window 2015-2023 (with a separate message when there are no
input files at all); in every other case it completes without these
errors. The missing-year-column condition of the claim is vacuous: every
accepted file's filename-inferred year lies in 2015-2023 (last conjunct),
so a usable year source always exists and the per-file fallback
`df['año'] = str(anio)` always succeeds — the code accordingly has no
missing-year raise. -/
theorem transform_error_characterization (files : List TransformIcfes.SrcFile) :
    (TransformIcfes.run files = .error .noInputFiles ↔ files = [])
    ∧ (TransformIcfes.run files = .error .noFilesInWindow ↔
        (files ≠ [] ∧ TransformIcfes.acceptedOf files = []))
    ∧ ((TransformIcfes.run files).isOk = true ↔ TransformIcfes.acceptedOf files ≠ [])
    ∧ (∀ fa ∈ TransformIcfes.acceptedOf files, 2015 ≤ fa.2 ∧ fa.2 ≤ 2023) := by
  refine ⟨?_, ?_, ?_, acceptedOf_mem_window⟩ <;>
  · unfold TransformIcfes.run
    by_cases h1 : files.isEmpty = true
    · have hf : files = [] := by simpa using h1
      subst hf
      simp [TransformIcfes.acceptedOf, Except.isOk, Except.toBool]
    · have hf : files ≠ [] := by simpa using h1
      rw [if_neg (by simp [h1])]
      by_cases h2 : (TransformIcfes.acceptedOf files).isEmpty = true
      · have ha : TransformIcfes.acceptedOf files = [] := by simpa using h2
        simp [ha, hf, Except.isOk, Except.toBool]
      · have ha : TransformIcfes.acceptedOf files ≠ [] := by simpa using h2
        rw [if_neg (by simp [h2])]
        simp [ha, hf, Except.isOk, Except.toBool]

/-- Witness for C6: with no input files at all, the run fails with the
no-input error. -/
theorem transform_error_characterization_witness :
    TransformIcfes.run [] = .error .noInputFiles :=
  (transform_error_characterization []).1.mpr rfl

/-- Claim C5 counterexample: `icfesExcluded` is named with the year 2010
but its `periodo` column says 2019. Under the claim's rule the year would
be 2019 (inside the accepted window) and the file would be accepted; the
code infers 2010 from the filename alone and excludes the file entirely,
failing the run for lack of accepted files. -/
theorem transform_period_column_ignored_counterexample :
    TransformIcfes.fileYearClaimed icfesExcluded = 2019
    ∧ (2015 ≤ 2019 ∧ 2019 ≤ 2023)
    ∧ TransformIcfes._extraer_anio_de_nombre icfesExcluded.stem = 2010
    ∧ TransformIcfes.run [icfesExcluded] = .error .noFilesInWindow := by
  refine ⟨by decide, by decide, by decide, by decide⟩

/-- Claim C5 (amended): the year used to accept or exclude a file (and to
order files) is inferred solely from the filename by
`_extraer_anio_de_nombre`; a file whose filename-inferred year falls
outside 2015-2023 is excluded entirely — appending such a file to any
nonempty input list leaves the run's outcome unchanged — and the number of
processed files equals the number of files whose filename year lies in the
window. The `periodo` column only supplies per-row year values. -/
theorem transform_year_from_filename_only :
    (∀ (files : List TransformIcfes.SrcFile) (f : TransformIcfes.SrcFile),
      files ≠ [] →
      ¬(2015 ≤ TransformIcfes._extraer_anio_de_nombre f.stem
        ∧ TransformIcfes._extraer_anio_de_nombre f.stem ≤ 2023) →
      TransformIcfes.run (files ++ [f]) = TransformIcfes.run files)
    ∧ (∀ files res, TransformIcfes.run files = .ok res →
        res.filesProcessed = (TransformIcfes.acceptedOf files).length) := by
  constructor
  · intro files f hne hw
    have hacc : TransformIcfes.acceptedOf (files ++ [f]) = TransformIcfes.acceptedOf files := by
      unfold TransformIcfes.acceptedOf
      rw [List.map_append]
      simp only [List.map_cons, List.map_nil]
      rw [List.filter_append]
      have hf : (([(f, TransformIcfes._extraer_anio_de_nombre f.stem)] :
          List (TransformIcfes.SrcFile × ℕ)).filter
            (fun fa => 2015 ≤ fa.2 && fa.2 ≤ 2023)) = [] := by
        simp only [List.filter_cons, List.filter_nil, Bool.and_eq_true, decide_eq_true_eq]
        rw [if_neg]
        exact hw
      rw [hf, List.append_nil]
    unfold TransformIcfes.run
    rw [isEmpty_false_of_ne_nil (show files ++ [f] ≠ [] by simp),
      isEmpty_false_of_ne_nil hne, hacc]
  · intro files res h
    unfold TransformIcfes.run at h
    by_cases h1 : files.isEmpty = true
    · rw [if_pos h1] at h
      exact absurd h (by simp)
    · rw [if_neg h1] at h
      by_cases h2 : (TransformIcfes.acceptedOf files).isEmpty = true
      · rw [if_pos h2] at h
        exact absurd h (by simp)
      · rw [if_neg h2] at h
        injection h with h
        rw [← h]
        exact length_sortByYear _

/-- Witness for the amended C5: appending the out-of-window file
`icfesExcluded` to the accepted file `icfesSample` changes nothing. -/
theorem transform_year_from_filename_only_witness :
    TransformIcfes.run ([icfesSample] ++ [icfesExcluded]) = TransformIcfes.run [icfesSample] :=
  transform_year_from_filename_only.1 [icfesSample] icfesExcluded (by decide) (by decide)

/-!
## Lookup Normalizer lemmas and Claim C7
-/

theorem mem_dedupFirstAux {α : Type} [DecidableEq α] :
    ∀ (l seen : List α) (a : α), a ∈ dedupFirstAux l seen ↔ (a ∈ l ∧ a ∉ seen) := by
  intro l
  induction l with
  | nil => simp [dedupFirstAux]
  | cons x t ih =>
    intro seen a
    unfold dedupFirstAux
    by_cases hx : x ∈ seen
    · rw [if_pos hx, ih]
      simp only [List.mem_cons]
      constructor
      · rintro ⟨h1, h2⟩
        exact ⟨Or.inr h1, h2⟩
      · rintro ⟨h1 | h1, h2⟩
        · subst h1; exact absurd hx h2
        · exact ⟨h1, h2⟩
    · rw [if_neg hx]
      simp only [List.mem_cons, ih]
      constructor
      · rintro (rfl | ⟨h1, h2⟩)
        · exact ⟨Or.inl rfl, hx⟩
        · refine ⟨Or.inr h1, fun hs => h2 (by simp [hs])⟩
      · rintro ⟨rfl | h1, h2⟩
        · exact Or.inl rfl
        · by_cases hax : a = x
          · exact Or.inl hax
          · exact Or.inr ⟨h1, by simp [hax, h2]⟩

theorem nodup_dedupFirstAux {α : Type} [DecidableEq α] :
    ∀ (l seen : List α), (dedupFirstAux l seen).Nodup := by
  intro l
  induction l with
  | nil => intro seen; simp [dedupFirstAux]
  | cons x t ih =>
    intro seen
    unfold dedupFirstAux
    by_cases hx : x ∈ seen
    · rw [if_pos hx]; exact ih seen
    · rw [if_neg hx]
      refine List.nodup_cons.mpr ⟨?_, ih _⟩
      intro hmem
      exact absurd (by simp : x ∈ x :: seen) ((mem_dedupFirstAux t (x :: seen) x).mp hmem).2

theorem mem_dedupFirst {α : Type} [DecidableEq α] {l : List α} {a : α} :
    a ∈ dedupFirst l ↔ a ∈ l := by
  unfold dedupFirst
  rw [mem_dedupFirstAux]
  simp

theorem nodup_dedupFirst {α : Type} [DecidableEq α] (l : List α) : (dedupFirst l).Nodup :=
  nodup_dedupFirstAux l []

theorem insKey_perm (x : ℤ × ℤ) : ∀ l, (TransformApi.insKey x l).Perm (x :: l) := by
  intro l
  induction l with
  | nil => exact List.Perm.refl _
  | cons y ys ih =>
    unfold TransformApi.insKey
    split
    · exact List.Perm.refl _
    · exact ((ih.cons y).trans (List.Perm.swap x y ys))

theorem sortKeys_perm : ∀ l, (TransformApi.sortKeys l).Perm l := by
  intro l
  induction l with
  | nil => exact List.Perm.refl _
  | cons x t ih =>
    unfold TransformApi.sortKeys
    exact (insKey_perm x (TransformApi.sortKeys t)).trans (ih.cons x)

theorem filter_beq_length_nodup {α : Type} [BEq α] [LawfulBEq α] [DecidableEq α] :
    ∀ {l : List α}, l.Nodup → ∀ k : α,
      (l.filter (fun a => a == k)).length = if k ∈ l then 1 else 0 := by
  intro l
  induction l with
  | nil => intro _ k; simp
  | cons a t ih =>
    intro hnd k
    obtain ⟨hnin, hndt⟩ := List.nodup_cons.mp hnd
    rw [List.filter_cons]
    by_cases hak : a = k
    · subst hak
      rw [if_pos (by simp)]
      have ht : (t.filter (fun b => b == a)).length = 0 := by
        rw [ih hndt a, if_neg hnin]
      simp [ht]
    · rw [if_neg (by simp [hak])]
      rw [ih hndt k]
      have : (k ∈ a :: t) ↔ (k ∈ t) := by
        simp only [List.mem_cons]
        constructor
        · rintro (rfl | h)
          · exact absurd rfl hak
          · exact h
        · exact Or.inr
      by_cases hkt : k ∈ t
      · rw [if_pos hkt, if_pos (this.mpr hkt)]
      · rw [if_neg hkt, if_neg (fun hm => hkt (this.mp hm))]

/-- Claim C7: for every raw lookup dataset that survives cleaning, the
normalizer's output has exactly one row per `(anio, depto_divipola)` key
occurring among the surviving rows; that row's value is the sum of the
surviving rows' values for the key, and its `departamento` is the first
name variant with a non-blank strip in source row order (blank when none
exists). -/
theorem api_unique_key_aggregation (rows : List TransformApi.ApiRow)
    (out : List TransformApi.GroupRow) (h : TransformApi.run rows = .ok out) :
    (∀ k : ℤ × ℤ, (out.filter (fun g => (g.anio, g.depto) == k)).length =
      if k ∈ (TransformApi.cleanRows rows).map TransformApi.keyOf then 1 else 0)
    ∧ ∀ g ∈ out,
        g.valor = (((TransformApi.cleanRows rows).filter
          (fun r => TransformApi.keyOf r == (g.anio, g.depto))).map
            (fun r => r.valor)).sum
        ∧ g.departamento = ((((TransformApi.cleanRows rows).filter
          (fun r => TransformApi.keyOf r == (g.anio, g.depto))).map
            (fun r => r.departamento)).find? (fun s => !(pyStrip s.toList).isEmpty)).getD "" := by
  unfold TransformApi.run at h
  by_cases hc : (TransformApi.cleanRows rows).isEmpty = true
  · rw [if_pos hc] at h
    exact absurd h (by simp)
  · rw [if_neg hc] at h
    injection h with h
    subst h
    set clean := TransformApi.cleanRows rows with hclean
    set keyList := TransformApi.sortKeys (dedupFirst (clean.map TransformApi.keyOf)) with hkl
    have hperm : keyList.Perm (dedupFirst (clean.map TransformApi.keyOf)) := sortKeys_perm _
    have hnd : keyList.Nodup := hperm.nodup_iff.mpr (nodup_dedupFirst _)
    have hmem : ∀ k : ℤ × ℤ, k ∈ keyList ↔ k ∈ clean.map TransformApi.keyOf := by
      intro k
      rw [hperm.mem_iff, mem_dedupFirst]
    constructor
    · intro k
      have hfun : (fun g : TransformApi.GroupRow => (g.anio, g.depto) == k) ∘
          TransformApi.aggKey clean = fun k' : ℤ × ℤ => k' == k := by
        funext k'
        simp [TransformApi.aggKey]
      rw [List.filter_map, hfun, List.length_map, filter_beq_length_nodup hnd k]
      by_cases hk : k ∈ keyList
      · rw [if_pos hk, if_pos ((hmem k).mp hk)]
      · rw [if_neg hk, if_neg (fun hm => hk ((hmem k).mpr hm))]
    · intro g hg
      rcases List.mem_map.mp hg with ⟨k', _, rfl⟩
      have hk : ((TransformApi.aggKey clean k').anio, (TransformApi.aggKey clean k').depto) = k' := by
        simp [TransformApi.aggKey]
      rw [hk]
      exact ⟨rfl, rfl⟩

/-- Witness for C7: the aggregation theorem applied to `apiSample`, whose
output is `apiOutSample` — the key (2019, 5) appears exactly once, its
value is the sum 100 + 20, and its name is the first non-blank variant. -/
theorem api_unique_key_aggregation_witness :
    (apiOutSample.filter
      (fun g => (g.anio, g.depto) == ((2019 : ℤ), (5 : ℤ)))).length = 1 := by
  have h := (api_unique_key_aggregation apiSample apiOutSample (by with_unfolding_all rfl)).1
    ((2019 : ℤ), (5 : ℤ))
  rw [h, if_pos (by decide)]

/-!
## Join & Imputation lemmas
-/

theorem map_eq_self_of_id {α : Type} {f : α → α} :
    ∀ {l : List α}, (∀ x ∈ l, f x = x) → l.map f = l := by
  intro l
  induction l with
  | nil => intro _; rfl
  | cons a t ih =>
    intro h
    rw [List.map_cons, h a (by simp), ih (fun x hx => h x (by simp [hx]))]

theorem length_flatMap_of_one {α β : Type} {f : α → List β} :
    ∀ {l : List α}, (∀ a ∈ l, (f a).length = 1) → (l.flatMap f).length = l.length := by
  intro l
  induction l with
  | nil => intro _; rfl
  | cons a t ih =>
    intro h
    rw [List.flatMap_cons, List.length_append, h a (by simp),
      ih (fun x hx => h x (by simp [hx])), List.length_cons]
    omega

theorem length_flatMap_ge {α β : Type} {f : α → List β} :
    ∀ {l : List α}, (∀ a ∈ l, 1 ≤ (f a).length) → l.length ≤ (l.flatMap f).length := by
  intro l
  induction l with
  | nil => intro _; simp
  | cons a t ih =>
    intro h
    rw [List.flatMap_cons, List.length_append, List.length_cons]
    have h1 := h a (by simp)
    have h2 := ih (fun x hx => h x (by simp [hx]))
    omega

/-- Under a unique lookup key, at most one lookup row matches any join
key. -/
theorem filter_key_length_le_one {pib : List Merge.PibRow} (hu : Merge.uniqueKeys pib)
    (ka kd : String) :
    (pib.filter (fun p => p.anio == some ka && p.depto == some kd)).length ≤ 1 := by
  induction pib with
  | nil => simp
  | cons p t ih =>
    have hmap := (List.nodup_cons.mp hu)
    have hnin : (p.anio, p.depto) ∉ t.map (fun q => (q.anio, q.depto)) := hmap.1
    have hut : Merge.uniqueKeys t := hmap.2
    rw [List.filter_cons]
    by_cases hp : (p.anio == some ka && p.depto == some kd) = true
    · rw [if_pos hp]
      have hpk : p.anio = some ka ∧ p.depto = some kd := by
        rw [Bool.and_eq_true] at hp
        exact ⟨beq_iff_eq.mp hp.1, beq_iff_eq.mp hp.2⟩
      have ht : t.filter (fun q => q.anio == some ka && q.depto == some kd) = [] := by
        rw [List.filter_eq_nil_iff]
        intro q hq hqp
        rw [Bool.and_eq_true] at hqp
        have hqk : q.anio = some ka ∧ q.depto = some kd :=
          ⟨beq_iff_eq.mp hqp.1, beq_iff_eq.mp hqp.2⟩
        exact hnin (List.mem_map.mpr ⟨q, hq, by rw [hqk.1, hqk.2, hpk.1, hpk.2]⟩)
      rw [ht]
      simp
    · rw [if_neg hp]
      exact ih hut

/-- Under a unique lookup key, the left join of one source row yields
exactly one output row. -/
theorem joinRow_length_one {pib : List Merge.PibRow} (hu : Merge.uniqueKeys pib)
    (dc : String) (r : Row) : (Merge.joinRow pib dc r).length = 1 := by
  simp only [Merge.joinRow]
  split
  · rfl
  · rename_i p t heq
    have hle := filter_key_length_le_one hu (pyStr (getCell r "año")) (pyStr (getCell r dc))
    rw [heq] at hle
    simp only [List.length_cons] at hle
    have ht : t = [] := List.length_eq_zero.mp (by omega)
    subst ht
    rfl

/-- The left join always yields at least one output row per source row
(unmatched rows survive with null fields). -/
theorem joinRow_length_pos (pib : List Merge.PibRow) (dc : String) (r : Row) :
    1 ≤ (Merge.joinRow pib dc r).length := by
  simp only [Merge.joinRow]
  split
  · simp
  · simp

/-- Every output row of the left join carries the source row's cells, and
its value is determined by the source row's join key alone. -/
theorem mem_joinRow {pib : List Merge.PibRow} (hu : Merge.uniqueKeys pib)
    {dc : String} {r : Row} {x : Merge.ERow} (hx : x ∈ Merge.joinRow pib dc r) :
    x.cells = r
    ∧ x.pib = Merge.matchVal pib (pyStr (getCell r "año")) (pyStr (getCell r dc)) := by
  simp only [Merge.joinRow] at hx
  split at hx
  · rename_i heq
    rcases List.mem_singleton.mp hx with rfl
    unfold Merge.matchVal
    rw [heq]
    exact ⟨rfl, rfl⟩
  · rename_i p t heq
    have hle := filter_key_length_le_one hu (pyStr (getCell r "año")) (pyStr (getCell r dc))
    rw [heq] at hle
    simp only [List.length_cons] at hle
    have ht : t = [] := List.length_eq_zero.mp (by omega)
    subst ht
    rcases List.mem_map.mp hx with ⟨q, hq, rfl⟩
    rcases List.mem_singleton.mp hq with rfl
    unfold Merge.matchVal
    rw [heq]
    exact ⟨rfl, rfl⟩

/-- Under a unique lookup key, `imputar_pib` is the identity on every
merged row when the join key came from `depto_normalizado`: a row lacking
a value belongs to a group whose rows all share its join key and hence all
lack the value, so the group mean is NaN and nothing is filled. -/
theorem imputeRow_id_of_unique {pib : List Merge.PibRow} (hu : Merge.uniqueKeys pib)
    {rows : List Row} {x : Merge.ERow}
    (hx : x ∈ rows.flatMap (Merge.joinRow pib "depto_normalizado")) :
    Merge.imputeRow (rows.flatMap (Merge.joinRow pib "depto_normalizado")) x = x := by
  unfold Merge.imputeRow
  by_cases hs : x.pib.isSome = true
  · rw [if_pos hs]
  · rw [if_neg hs]
    have hnone : x.pib = none := Option.not_isSome_iff_eq_none.mp hs
    cases ha : getCell x.cells "año" with
    | none => rfl
    | some a =>
      cases hd : getCell x.cells "depto_normalizado" with
      | none => rfl
      | some d =>
        rcases List.mem_flatMap.mp hx with ⟨r, hr, hxr⟩
        obtain ⟨hcells, hpib⟩ := mem_joinRow hu hxr
        have hka : pyStr (getCell r "año") = a := by
          rw [← hcells, ha]; rfl
        have hkd : pyStr (getCell r "depto_normalizado") = d := by
          rw [← hcells, hd]; rfl
        have hmv : Merge.matchVal pib a d = none := by
          rw [← hka, ← hkd, ← hpib, hnone]
        have hgm : Merge.groupMean (rows.flatMap (Merge.joinRow pib "depto_normalizado")) a d
            = none := by
          unfold Merge.groupMean
          have hvs : ((rows.flatMap (Merge.joinRow pib "depto_normalizado")).filter
              (fun y => getCell y.cells "año" == some a
                && getCell y.cells "depto_normalizado" == some d)).filterMap
                (fun y => y.pib) = [] := by
            rw [List.filterMap_eq_nil_iff]
            intro y hy
            have hymem := List.mem_filter.mp hy
            have hy2 := hymem.2
            rw [Bool.and_eq_true] at hy2
            have hya : getCell y.cells "año" = some a := beq_iff_eq.mp hy2.1
            have hyd : getCell y.cells "depto_normalizado" = some d := beq_iff_eq.mp hy2.2
            rcases List.mem_flatMap.mp hymem.1 with ⟨ry, hry, hyr⟩
            obtain ⟨hycells, hypib⟩ := mem_joinRow hu hyr
            have hyka : pyStr (getCell ry "año") = a := by
              rw [← hycells, hya]; rfl
            have hykd : pyStr (getCell ry "depto_normalizado") = d := by
              rw [← hycells, hyd]; rfl
            rw [hypib, hyka, hykd, hmv]
          rw [hvs]
          rfl
        show { x with
          pib := Merge.groupMean (rows.flatMap (Merge.joinRow pib "depto_normalizado")) a d } = x
        rw [hgm]
        obtain ⟨cells, dep, pibv⟩ := x
        simp only at hnone
        rw [hnone]

/-- Under a unique lookup key, the whole imputation pass leaves the merged
batch unchanged (when `depto_normalizado` is absent the pass is skipped;
when present it is the join column, and every group is homogeneous). -/
theorem imputePass_id_of_unique {pib : List Merge.PibRow} (hu : Merge.uniqueKeys pib)
    (cols : List String) (rows : List Row) (dc : String)
    (hdc : cols.contains "depto_normalizado" = true → dc = "depto_normalizado") :
    Merge.imputePass cols (rows.flatMap (Merge.joinRow pib dc))
      = rows.flatMap (Merge.joinRow pib dc) := by
  unfold Merge.imputePass
  by_cases hcond : (cols.contains "depto_normalizado"
      && (rows.flatMap (Merge.joinRow pib dc)).any (fun x => x.pib.isNone)) = true
  · rw [if_pos hcond]
    rw [Bool.and_eq_true] at hcond
    have hdn : dc = "depto_normalizado" := hdc hcond.1
    subst hdn
    exact map_eq_self_of_id (fun x hx => imputeRow_id_of_unique hu hx)
  · rw [if_neg hcond]

/-!
## Batch-preparation lemmas
-/

theorem prepYear_rows_length (c1 : Merge.Chunk) :
    (Merge.prepYear c1).rows.length = c1.rows.length := by
  unfold Merge.prepYear
  split
  · rfl
  · split
    · simp [Merge.renameChunk]
    · rfl

theorem lowerChunk_rows_length (c : Merge.Chunk) :
    (Merge.lowerChunk c).rows.length = c.rows.length := by
  simp [Merge.lowerChunk]

theorem prepChunk_ok_c2 {c : Merge.Chunk} {c2 : Merge.Chunk} {dc : String}
    (h : Merge.prepChunk c = .ok (c2, dc)) :
    c2 = Merge.prepYear (Merge.lowerChunk c) := by
  simp only [Merge.prepChunk] at h
  split at h
  · split at h
    · injection h with h
      injection h with h1 h2
      exact h1.symm
    · split at h
      · injection h with h
        injection h with h1 h2
        exact h1.symm
      · exact absurd h (by simp)
  · exact absurd h (by simp)

theorem prepChunk_ok_rows_length {c : Merge.Chunk} {c2 : Merge.Chunk} {dc : String}
    (h : Merge.prepChunk c = .ok (c2, dc)) :
    c2.rows.length = c.rows.length := by
  rw [prepChunk_ok_c2 h, prepYear_rows_length, lowerChunk_rows_length]

theorem prepChunk_ok_dc {c : Merge.Chunk} {c2 : Merge.Chunk} {dc : String}
    (h : Merge.prepChunk c = .ok (c2, dc))
    (hdn : c2.cols.contains "depto_normalizado" = true) :
    dc = "depto_normalizado" := by
  have hc2 := prepChunk_ok_c2 h
  simp only [Merge.prepChunk] at h
  rw [← hc2, if_pos hdn] at h
  split at h
  · injection h with h
    injection h with h1 h2
    exact h2.symm
  · exact absurd h (by simp)

theorem prepChunk_error_kind {c : Merge.Chunk} {e : Merge.MergeErr}
    (h : Merge.prepChunk c = .error e) : ∃ m, e = .runtimeError m := by
  simp only [Merge.prepChunk] at h
  split at h
  · split at h
    · exact absurd h (by simp)
    · split at h
      · exact absurd h (by simp)
      · injection h with h
        exact ⟨Merge.deptoMsg, h.symm⟩
  · injection h with h
    exact ⟨Merge.yearMsg, h.symm⟩

/-!
## Batch-level and run-level join specifications
-/

theorem mergeChunk_ok_spec {pib : List Merge.PibRow} (hu : Merge.uniqueKeys pib)
    {c : Merge.Chunk} {n k : ℕ} {out : List Merge.ERow}
    (h : Merge.mergeChunk pib c = .ok (n, k, out)) :
    n = c.rows.length ∧ out.length = n ∧ k = out.countP (fun x => x.pib.isSome) := by
  unfold Merge.mergeChunk at h
  cases hp : Merge.prepChunk c with
  | error e =>
    rw [hp] at h
    exact absurd h (by simp)
  | ok pr =>
    obtain ⟨c2, dc⟩ := pr
    rw [hp] at h
    simp only at h
    injection h with h
    injection h with h1 h
    injection h with h2 h3
    have himp : Merge.imputePass c2.cols (c2.rows.flatMap (Merge.joinRow pib dc))
        = c2.rows.flatMap (Merge.joinRow pib dc) :=
      imputePass_id_of_unique hu c2.cols c2.rows dc (fun hdn => prepChunk_ok_dc hp hdn)
    have hlen : (c2.rows.flatMap (Merge.joinRow pib dc)).length = c2.rows.length :=
      length_flatMap_of_one (fun r _ => joinRow_length_one hu dc r)
    refine ⟨?_, ?_, ?_⟩
    · rw [← h1, hlen, prepChunk_ok_rows_length hp]
    · rw [← h3, himp, hlen, ← h1, hlen]
    · rw [← h2, ← h3, himp]

theorem mergeChunks_ok_spec {pib : List Merge.PibRow} (hu : Merge.uniqueKeys pib) :
    ∀ {chunks : List Merge.Chunk} {rs : List (ℕ × ℕ × List Merge.ERow)},
      Merge.mergeChunks pib chunks = .ok rs →
      ((rs.map (fun r => r.1)).sum = (chunks.map (fun c => c.rows.length)).sum)
      ∧ ((rs.flatMap (fun r => r.2.2)).length = (rs.map (fun r => r.1)).sum)
      ∧ ((rs.map (fun r => r.2.1)).sum
          = (rs.flatMap (fun r => r.2.2)).countP (fun x => x.pib.isSome)) := by
  intro chunks
  induction chunks with
  | nil =>
    intro rs h
    unfold Merge.mergeChunks at h
    injection h with h
    subst h
    exact ⟨rfl, rfl, rfl⟩
  | cons c cs ih =>
    intro rs h
    unfold Merge.mergeChunks at h
    cases hc : Merge.mergeChunk pib c with
    | error e =>
      rw [hc] at h
      exact absurd h (by simp)
    | ok r =>
      rw [hc] at h
      cases hcs : Merge.mergeChunks pib cs with
      | error e =>
        rw [hcs] at h
        exact absurd h (by simp)
      | ok rs2 =>
        rw [hcs] at h
        simp only at h
        injection h with h
        subst h
        obtain ⟨n, k, out⟩ := r
        obtain ⟨hn, hlen, hk⟩ := mergeChunk_ok_spec hu hc
        obtain ⟨ih1, ih2, ih3⟩ := ih hcs
        refine ⟨?_, ?_, ?_⟩
        · simp only [List.map_cons, List.sum_cons, ih1, hn]
        · simp only [List.flatMap_cons, List.length_append, List.map_cons, List.sum_cons,
            ih2, hlen]
        · simp only [List.flatMap_cons, List.map_cons, List.sum_cons,
            List.countP_append, ih3, hk]

/-!
## Claims C1, C2, C10 — join statistics, row preservation, imputation
-/

/-- Claim C2: with a unique lookup key (the Lookup Normalizer's
invariant), the engine writes exactly one enriched row per input row — the
left join never drops an unmatched row and never duplicates a matched one,
so the reported total and the written rows both equal the input row
count. -/
theorem merge_row_count_preserved (pib : List Merge.PibRow) (chunks : List Merge.Chunk)
    (res : Merge.MergeResult) (hu : Merge.uniqueKeys pib)
    (h : Merge.run pib chunks = .ok res) :
    res.totalRows = (chunks.map (fun c => c.rows.length)).sum
    ∧ res.outRows.length = res.totalRows := by
  unfold Merge.run at h
  cases hm : Merge.mergeChunks pib chunks with
  | error e =>
    rw [hm] at h
    exact absurd h (by simp)
  | ok rs =>
    rw [hm] at h
    dsimp only at h
    obtain ⟨h1, h2, h3⟩ := mergeChunks_ok_spec hu hm
    by_cases ht : (rs.map (fun r => r.1)).sum = 0
    · rw [if_pos ht] at h
      exact absurd h (by simp)
    · rw [if_neg ht] at h
      injection h with h
      subst h
      exact ⟨h1, h2⟩

/-- Witness for C2 at the concrete sample: two input rows, two output
rows. -/
theorem merge_row_count_preserved_witness :
    mergeResSample.totalRows = (([chunkSample].map (fun c => c.rows.length)).sum)
    ∧ mergeResSample.outRows.length = mergeResSample.totalRows :=
  merge_row_count_preserved pibSample [chunkSample] mergeResSample (by decide)
    (by with_unfolding_all rfl)

/-- Claim C1: with a unique lookup key, the persisted statistics satisfy
`rows_with_pib` = number of written rows whose value is non-null after
both the join and the imputation pass, `rows_without_pib` =
`total_rows - rows_with_pib`, and `pib_coverage` =
`rows_with_pib / total_rows`. (The counter is accumulated before
imputation, but under the unique key the imputation pass never fills a
value — `imputePass_id_of_unique` — so the statistic equally reflects the
post-imputation state, which is what the spec's contract asks.) -/
theorem merge_coverage_stats (pib : List Merge.PibRow) (chunks : List Merge.Chunk)
    (res : Merge.MergeResult) (hu : Merge.uniqueKeys pib)
    (h : Merge.run pib chunks = .ok res) :
    res.rowsWithPib = res.outRows.countP (fun x => x.pib.isSome)
    ∧ res.rowsWithoutPib = res.totalRows - res.rowsWithPib
    ∧ res.pibCoverage = (res.rowsWithPib : ℚ) / (res.totalRows : ℚ)
    ∧ res.totalRows = res.outRows.length := by
  unfold Merge.run at h
  cases hm : Merge.mergeChunks pib chunks with
  | error e =>
    rw [hm] at h
    exact absurd h (by simp)
  | ok rs =>
    rw [hm] at h
    dsimp only at h
    obtain ⟨h1, h2, h3⟩ := mergeChunks_ok_spec hu hm
    by_cases ht : (rs.map (fun r => r.1)).sum = 0
    · rw [if_pos ht] at h
      exact absurd h (by simp)
    · rw [if_neg ht] at h
      injection h with h
      subst h
      exact ⟨h3, rfl, rfl, h2.symm⟩

/-- Witness for C1 at the concrete sample: one of two rows matched, so the
stats are 1 with, 1 without, coverage 1/2 — and they agree with the
written rows. -/
theorem merge_coverage_stats_witness :
    mergeResSample.rowsWithPib = mergeResSample.outRows.countP (fun x => x.pib.isSome)
    ∧ mergeResSample.rowsWithoutPib = mergeResSample.totalRows - mergeResSample.rowsWithPib
    ∧ mergeResSample.pibCoverage
        = (mergeResSample.rowsWithPib : ℚ) / (mergeResSample.totalRows : ℚ)
    ∧ mergeResSample.totalRows = mergeResSample.outRows.length :=
  merge_coverage_stats pibSample [chunkSample] mergeResSample (by decide)
    (by with_unfolding_all rfl)

/-- Claim C10: for a batch whose region join key is the
`depto_normalizado` column (the non-fallback path) and a unique lookup
key, the imputation pass is the identity on the joined batch: every row
still lacking a value after the left join lies in a group in which all
rows lack it, so the group mean is undefined and nothing is filled. -/
theorem merge_impute_pass_identity (pib : List Merge.PibRow) (c c2 : Merge.Chunk) (dc : String)
    (hu : Merge.uniqueKeys pib) (hp : Merge.prepChunk c = .ok (c2, dc))
    (hdn : c2.cols.contains "depto_normalizado" = true) :
    Merge.imputePass c2.cols (c2.rows.flatMap (Merge.joinRow pib dc))
      = c2.rows.flatMap (Merge.joinRow pib dc) :=
  imputePass_id_of_unique hu c2.cols c2.rows dc (fun _ => prepChunk_ok_dc hp hdn)

/-- Witness for C10 at the concrete sample batch (whose join column is
`depto_normalizado` and whose second row stays unmatched and unfilled). -/
theorem merge_impute_pass_identity_witness :
    Merge.imputePass chunkSample.cols
      (chunkSample.rows.flatMap (Merge.joinRow pibSample "depto_normalizado"))
      = chunkSample.rows.flatMap (Merge.joinRow pibSample "depto_normalizado") :=
  merge_impute_pass_identity pibSample chunkSample chunkSample "depto_normalizado"
    (by decide) (by decide) (by decide)

/-!
## Join-key-column characterization (Claim C8)
-/

theorem contains_iff_mem {l : List String} {s : String} : l.contains s = true ↔ s ∈ l := by
  simp [List.contains]

theorem mem_rename_iff {cols : List String} {cand s : String} (hs1 : s ≠ "año")
    (hs2 : s ≠ cand) :
    (s ∈ cols.map (fun x => if x = cand then "año" else x)) ↔ s ∈ cols := by
  simp only [List.mem_map]
  constructor
  · rintro ⟨x, hx, hxe⟩
    by_cases hxc : x = cand
    · rw [if_pos hxc] at hxe
      exact absurd hxe.symm hs1
    · rw [if_neg hxc] at hxe
      rw [← hxe]
      exact hx
  · intro hx
    refine ⟨s, hx, ?_⟩
    rw [if_neg hs2]

theorem prepYear_ano_iff (c1 : Merge.Chunk) :
    ((Merge.prepYear c1).cols.contains "año" = true) ↔ (Merge.hasYearCol c1.cols = true) := by
  unfold Merge.prepYear
  split
  · rename_i hy
    simp only [Merge.hasYearCol, Bool.or_eq_true]
    exact ⟨fun h => Or.inl h, fun _ => hy⟩
  · rename_i hy
    cases hf : Merge.yearFallbacks.find? (fun x => c1.cols.contains x) with
    | some cand =>
      have hcand : cand ∈ c1.cols := contains_iff_mem.mp (List.find?_some hf)
      constructor
      · intro _
        simp only [Merge.hasYearCol, Bool.or_eq_true, List.any_eq_true]
        exact Or.inr ⟨cand, List.mem_of_find?_eq_some hf, List.find?_some hf⟩
      · intro _
        simp only [Merge.renameChunk]
        exact contains_iff_mem.mpr
          (List.mem_map.mpr ⟨cand, hcand, by rw [if_pos rfl]⟩)
    | none =>
      have hall : ∀ x ∈ Merge.yearFallbacks, c1.cols.contains x = false := by
        intro x hx
        have := List.find?_eq_none.mp hf x hx
        simpa using this
      constructor
      · intro h
        exact absurd h hy
      · intro h
        simp only [Merge.hasYearCol, Bool.or_eq_true, List.any_eq_true] at h
        rcases h with h | ⟨x, hx, hcx⟩
        · exact absurd h hy
        · rw [hall x hx] at hcx
          exact absurd hcx (by simp)

theorem prepYear_depto_iff (c1 : Merge.Chunk) {s : String}
    (hs : s ∈ "depto_normalizado" :: Merge.deptoFallbacks) :
    ((Merge.prepYear c1).cols.contains s = true) ↔ (c1.cols.contains s = true) := by
  unfold Merge.prepYear
  split
  · exact Iff.rfl
  · cases hf : Merge.yearFallbacks.find? (fun x => c1.cols.contains x) with
    | some cand =>
      have hcm : cand ∈ Merge.yearFallbacks := List.mem_of_find?_eq_some hf
      have hs1 : s ≠ "año" := by
        fin_cases hs <;> decide
      have hs2 : s ≠ cand := by
        fin_cases hs <;> fin_cases hcm <;> decide
      simp only [Merge.renameChunk]
      rw [contains_iff_mem, contains_iff_mem]
      exact mem_rename_iff hs1 hs2
    | none => exact Iff.rfl

theorem prepYear_hasDepto_iff (c1 : Merge.Chunk) :
    (Merge.hasDeptoCol (Merge.prepYear c1).cols = true)
      ↔ (Merge.hasDeptoCol c1.cols = true) := by
  simp only [Merge.hasDeptoCol, Bool.or_eq_true, List.any_eq_true]
  constructor
  · rintro (h | ⟨x, hx, hcx⟩)
    · exact Or.inl ((prepYear_depto_iff c1 (by simp)).mp h)
    · exact Or.inr ⟨x, hx, (prepYear_depto_iff c1 (by simp [hx])).mp hcx⟩
  · rintro (h | ⟨x, hx, hcx⟩)
    · exact Or.inl ((prepYear_depto_iff c1 (by simp)).mpr h)
    · exact Or.inr ⟨x, hx, (prepYear_depto_iff c1 (by simp [hx])).mpr hcx⟩

theorem prepChunk_isOk_iff (c : Merge.Chunk) :
    ((Merge.prepChunk c).isOk = true) ↔
      (Merge.hasYearCol (Merge.lowerChunk c).cols = true
        ∧ Merge.hasDeptoCol (Merge.lowerChunk c).cols = true) := by
  simp only [Merge.prepChunk]
  by_cases hy : (Merge.prepYear (Merge.lowerChunk c)).cols.contains "año" = true
  · rw [if_pos hy]
    have hy2 : Merge.hasYearCol (Merge.lowerChunk c).cols = true :=
      (prepYear_ano_iff _).mp hy
    by_cases hd : (Merge.prepYear (Merge.lowerChunk c)).cols.contains "depto_normalizado" = true
    · rw [if_pos hd]
      have hd2 : Merge.hasDeptoCol (Merge.lowerChunk c).cols = true := by
        rw [← prepYear_hasDepto_iff]
        simp only [Merge.hasDeptoCol, Bool.or_eq_true]
        exact Or.inl hd
      simp [hy2, hd2, Except.isOk, Except.toBool]
    · rw [if_neg hd]
      cases hf : Merge.deptoFallbacks.find?
          (fun x => (Merge.prepYear (Merge.lowerChunk c)).cols.contains x) with
      | some dc =>
        have hd2 : Merge.hasDeptoCol (Merge.lowerChunk c).cols = true := by
          rw [← prepYear_hasDepto_iff]
          simp only [Merge.hasDeptoCol, Bool.or_eq_true, List.any_eq_true]
          exact Or.inr ⟨dc, List.mem_of_find?_eq_some hf, List.find?_some hf⟩
        simp [hy2, hd2, Except.isOk, Except.toBool]
      | none =>
        have hd2 : Merge.hasDeptoCol (Merge.lowerChunk c).cols = false := by
          rw [← Bool.not_eq_true, ← prepYear_hasDepto_iff]
          simp only [Merge.hasDeptoCol, Bool.or_eq_true, List.any_eq_true]
          rintro (h | ⟨x, hx, hcx⟩)
          · exact absurd h hd
          · have := List.find?_eq_none.mp hf x hx
            rw [hcx] at this
            exact absurd rfl this
        simp [hd2, Except.isOk, Except.toBool]
  · rw [if_neg hy]
    have hy2 : Merge.hasYearCol (Merge.lowerChunk c).cols = false := by
      rw [← Bool.not_eq_true, ← prepYear_ano_iff]
      exact hy
    simp [hy2, Except.isOk, Except.toBool]

theorem prepChunk_isOk_false_iff (c : Merge.Chunk) :
    ((Merge.prepChunk c).isOk = false) ↔
      ¬(Merge.hasYearCol (Merge.lowerChunk c).cols = true
        ∧ Merge.hasDeptoCol (Merge.lowerChunk c).cols = true) := by
  rw [← prepChunk_isOk_iff]
  cases (Merge.prepChunk c).isOk <;> simp

theorem mergeChunk_error_eq {pib : List Merge.PibRow} {c : Merge.Chunk} {e : Merge.MergeErr} :
    Merge.mergeChunk pib c = .error e ↔ Merge.prepChunk c = .error e := by
  unfold Merge.mergeChunk
  cases hp : Merge.prepChunk c with
  | error e2 => simp
  | ok pr => simp

theorem mergeChunk_isOk_iff {pib : List Merge.PibRow} {c : Merge.Chunk} :
    ((Merge.mergeChunk pib c).isOk = true) ↔ ((Merge.prepChunk c).isOk = true) := by
  unfold Merge.mergeChunk
  cases hp : Merge.prepChunk c with
  | error e2 => simp [Except.isOk, Except.toBool]
  | ok pr =>
    obtain ⟨c2, dc⟩ := pr
    simp [Except.isOk, Except.toBool]

theorem mergeChunk_ok_pos {pib : List Merge.PibRow} {c : Merge.Chunk}
    {r : ℕ × ℕ × List Merge.ERow} (hrows : c.rows ≠ [])
    (h : Merge.mergeChunk pib c = .ok r) : 0 < r.1 := by
  unfold Merge.mergeChunk at h
  cases hp : Merge.prepChunk c with
  | error e =>
    rw [hp] at h
    exact absurd h (by simp)
  | ok pr =>
    obtain ⟨c2, dc⟩ := pr
    rw [hp] at h
    simp only at h
    injection h with h
    have hge : c2.rows.length ≤ (c2.rows.flatMap (Merge.joinRow pib dc)).length :=
      length_flatMap_ge (fun r _ => joinRow_length_pos pib dc r)
    have hlen : c2.rows.length = c.rows.length := prepChunk_ok_rows_length hp
    have hpos : 0 < c.rows.length := List.length_pos.mpr hrows
    rw [← h]
    simp only
    omega

theorem mergeChunks_error_iff (pib : List Merge.PibRow) :
    ∀ chunks : List Merge.Chunk,
      (∃ m, Merge.mergeChunks pib chunks = .error (.runtimeError m)) ↔
        ∃ c ∈ chunks, (Merge.prepChunk c).isOk = false := by
  intro chunks
  induction chunks with
  | nil =>
    simp [Merge.mergeChunks]
  | cons c cs ih =>
    unfold Merge.mergeChunks
    cases hc : Merge.mergeChunk pib c with
    | error e =>
      have hpe : Merge.prepChunk c = .error e := mergeChunk_error_eq.mp hc
      obtain ⟨m, hm⟩ := prepChunk_error_kind hpe
      refine iff_of_true ⟨m, by rw [hm]⟩ ⟨c, by simp, by rw [hpe, hm]; rfl⟩
    | ok r =>
      have hok : (Merge.prepChunk c).isOk = true :=
        mergeChunk_isOk_iff.mp (by rw [hc]; rfl)
      cases hcs : Merge.mergeChunks pib cs with
      | error e2 =>
        rw [hcs] at ih
        constructor
        · intro ⟨m, hm⟩
          simp only at hm
          injection hm with hm
          rcases (ih.mp ⟨m, by rw [hm]⟩) with ⟨c2, hc2, hbad⟩
          exact ⟨c2, by simp [hc2], hbad⟩
        · rintro ⟨c2, hc2, hbad⟩
          rcases List.mem_cons.mp hc2 with rfl | hc2
          · rw [hok] at hbad
            exact absurd hbad (by simp)
          · rcases ih.mpr ⟨c2, hc2, hbad⟩ with ⟨m, hm⟩
            injection hm with hm
            exact ⟨m, by simp [hm]⟩
      | ok rs2 =>
        rw [hcs] at ih
        constructor
        · intro ⟨m, hm⟩
          simp only at hm
          exact absurd hm (by simp)
        · rintro ⟨c2, hc2, hbad⟩
          rcases List.mem_cons.mp hc2 with rfl | hc2
          · rw [hok] at hbad
            exact absurd hbad (by simp)
          · rcases ih.mpr ⟨c2, hc2, hbad⟩ with ⟨m, hm⟩
            exact absurd hm (by simp)

theorem mergeChunks_ne_zeroDiv (pib : List Merge.PibRow) :
    ∀ chunks : List Merge.Chunk,
      Merge.mergeChunks pib chunks ≠ .error .zeroDivisionError := by
  intro chunks
  induction chunks with
  | nil => simp [Merge.mergeChunks]
  | cons c cs ih =>
    unfold Merge.mergeChunks
    cases hc : Merge.mergeChunk pib c with
    | error e =>
      have hpe : Merge.prepChunk c = .error e := mergeChunk_error_eq.mp hc
      obtain ⟨m, hm⟩ := prepChunk_error_kind hpe
      subst hm
      simp
    | ok r =>
      cases hcs : Merge.mergeChunks pib cs with
      | error e2 =>
        rw [hcs] at ih
        intro heq
        simp only at heq
        injection heq with heq
        exact ih (by rw [heq])
      | ok rs2 => simp

theorem mergeChunks_sum_pos {pib : List Merge.PibRow} {chunks : List Merge.Chunk}
    {rs : List (ℕ × ℕ × List Merge.ERow)} (hne : ∀ c ∈ chunks, c.rows ≠ [])
    (h : Merge.mergeChunks pib chunks = .ok rs) (hc : chunks ≠ []) :
    0 < (rs.map (fun r => r.1)).sum := by
  cases chunks with
  | nil => exact absurd rfl hc
  | cons c cs =>
    unfold Merge.mergeChunks at h
    cases hc1 : Merge.mergeChunk pib c with
    | error e =>
      rw [hc1] at h
      exact absurd h (by simp)
    | ok r =>
      rw [hc1] at h
      cases hcs : Merge.mergeChunks pib cs with
      | error e2 =>
        rw [hcs] at h
        exact absurd h (by simp)
      | ok rs2 =>
        rw [hcs] at h
        simp only at h
        injection h with h
        subst h
        have := mergeChunk_ok_pos (hne c (by simp)) hc1
        simp only [List.map_cons, List.sum_cons]
        omega

/-!
## Claim C8 — engine failure modes
-/

/-- Claim C8 counterexample: on an empty source (zero batches) the engine
does fail, but with a bare `ZeroDivisionError` raised by the final summary
computation — an error that carries no message — not with a descriptive
`EmptyInput` error. -/
theorem merge_empty_input_counterexample :
    Merge.run pibSample [] = .error .zeroDivisionError
    ∧ Merge.isDescriptiveB .zeroDivisionError = false :=
  ⟨by decide, by decide⟩

/-- Claim C8 (amended): the engine fails with a descriptive
`RuntimeError` naming the missing join column if and only if some batch,
after lower-casing and all fallback column names, lacks a year or a region
column; given nonempty batches (as the chunked CSV reader produces), it
fails if and only if there are zero batches — with an unhandled
`ZeroDivisionError` from the final summary computation, not a descriptive
`EmptyInput` error — and it completes normally exactly when there is at
least one batch and every batch carries both join-key columns. -/
theorem merge_error_characterization (pib : List Merge.PibRow) (chunks : List Merge.Chunk)
    (hne : ∀ c ∈ chunks, c.rows ≠ []) :
    ((∃ m, Merge.run pib chunks = .error (.runtimeError m)) ↔
      ∃ c ∈ chunks, ¬(Merge.hasYearCol (Merge.lowerChunk c).cols = true
        ∧ Merge.hasDeptoCol (Merge.lowerChunk c).cols = true))
    ∧ (Merge.run pib chunks = .error .zeroDivisionError ↔ chunks = [])
    ∧ ((Merge.run pib chunks).isOk = true ↔
        (chunks ≠ [] ∧ ∀ c ∈ chunks,
          Merge.hasYearCol (Merge.lowerChunk c).cols = true
          ∧ Merge.hasDeptoCol (Merge.lowerChunk c).cols = true)) := by
  have hbridge : ∀ c : Merge.Chunk, ((Merge.prepChunk c).isOk = false ↔
      ¬(Merge.hasYearCol (Merge.lowerChunk c).cols = true
        ∧ Merge.hasDeptoCol (Merge.lowerChunk c).cols = true)) :=
    fun c => prepChunk_isOk_false_iff c
  have hbad : (∃ c ∈ chunks, (Merge.prepChunk c).isOk = false) ↔
      ∃ c ∈ chunks, ¬(Merge.hasYearCol (Merge.lowerChunk c).cols = true
        ∧ Merge.hasDeptoCol (Merge.lowerChunk c).cols = true) := by
    constructor
    · rintro ⟨c, hc, hb⟩
      exact ⟨c, hc, (hbridge c).mp hb⟩
    · rintro ⟨c, hc, hb⟩
      exact ⟨c, hc, (hbridge c).mpr hb⟩
  unfold Merge.run
  cases hm : Merge.mergeChunks pib chunks with
  | error e =>
    have hkind : ∃ m, e = .runtimeError m := by
      cases e with
      | runtimeError m => exact ⟨m, rfl⟩
      | zeroDivisionError => exact absurd hm (mergeChunks_ne_zeroDiv pib chunks)
    obtain ⟨m, rfl⟩ := hkind
    have hex : ∃ c ∈ chunks, (Merge.prepChunk c).isOk = false :=
      (mergeChunks_error_iff pib chunks).mp ⟨m, hm⟩
    refine ⟨iff_of_true ⟨m, rfl⟩ (hbad.mp hex), ?_, ?_⟩
    · refine iff_of_false (by simp) ?_
      intro hc
      subst hc
      exact absurd hm (by simp [Merge.mergeChunks])
    · refine iff_of_false (by simp [Except.isOk, Except.toBool]) ?_
      rintro ⟨_, hall⟩
      rcases hbad.mp hex with ⟨c, hc, hb⟩
      exact hb (hall c hc)
  | ok rs =>
    dsimp only
    have hnobad : ¬∃ c ∈ chunks, (Merge.prepChunk c).isOk = false := by
      intro hex
      rcases (mergeChunks_error_iff pib chunks).mpr hex with ⟨m, hm2⟩
      rw [hm] at hm2
      exact absurd hm2 (by simp)
    by_cases ht : (rs.map (fun r => r.1)).sum = 0
    · rw [if_pos ht]
      have hcnil : chunks = [] := by
        by_contra hcne
        have := mergeChunks_sum_pos hne hm hcne
        omega
      subst hcnil
      refine ⟨?_, iff_of_true rfl rfl, ?_⟩
      · refine iff_of_false ?_ ?_
        · rintro ⟨m, hm2⟩
          exact absurd hm2 (by simp)
        · rintro ⟨c, hc, _⟩
          exact absurd hc (by simp)
      · refine iff_of_false (by simp [Except.isOk, Except.toBool]) ?_
        rintro ⟨hcne, _⟩
        exact hcne rfl
    · rw [if_neg ht]
      have hcne : chunks ≠ [] := by
        intro hc
        subst hc
        have : rs = [] := by
          have : Merge.mergeChunks pib ([] : List Merge.Chunk) = .ok [] := rfl
          rw [this] at hm
          injection hm with hm
          exact hm.symm
        subst this
        exact ht rfl
      refine ⟨?_, iff_of_false (by simp) (fun hc => hcne hc), ?_⟩
      · refine iff_of_false ?_ ?_
        · rintro ⟨m, hm2⟩
          exact absurd hm2 (by simp)
        · intro hex
          exact hnobad (hbad.mpr hex)
      · refine iff_of_true (by simp [Except.isOk, Except.toBool]) ⟨hcne, ?_⟩
        intro c hc
        by_contra hb
        exact hnobad ⟨c, hc, (hbridge c).mpr hb⟩

/-- Witness for the amended C8: on the concrete nonempty sample batch the
engine completes normally. -/
theorem merge_error_characterization_witness :
    (Merge.run pibSample [chunkSample]).isOk = true :=
  ((merge_error_characterization pibSample [chunkSample]
    (by decide)).2.2).mpr ⟨by decide, by decide⟩

/-!
## Bulk Loader lemmas and Claim C9
-/

theorem find_append_none {α : Type} {p : α → Bool} :
    ∀ {l1 l2 : List α}, l1.find? p = none → (l1 ++ l2).find? p = l2.find? p := by
  intro l1 l2 h
  induction l1 with
  | nil => rfl
  | cons a t ih =>
    cases hpa : p a with
    | true =>
      rw [List.find?_cons_of_pos _ hpa] at h
      exact absurd h (by simp)
    | false =>
      rw [List.find?_cons_of_neg _ (by simp [hpa])] at h
      rw [List.cons_append, List.find?_cons_of_neg _ (by simp [hpa])]
      exact ih h

theorem dropTable_find_none (db : LoadDw.DB) (t : String) :
    (LoadDw.dropTable db t).find? (fun p => p.1 == t) = none := by
  rw [List.find?_eq_none]
  intro x hx
  have := (List.mem_filter.mp hx).2
  simp only [Bool.not_eq_true'] at this
  simp [this]

theorem lookupTable_setTable (db : LoadDw.DB) (t : String) (tb : LoadDw.Table) :
    LoadDw.lookupTable (LoadDw.setTable db t tb) t = some tb := by
  unfold LoadDw.lookupTable LoadDw.setTable
  rw [find_append_none (dropTable_find_none db t)]
  simp [List.find?_cons]

/-- Claim C9: loading an enriched file whose header has the three columns
`c1, c2, c3` into a fresh destination (no table of that name, with no name
collisions against the synthetic columns) creates a table whose schema is
exactly the three header columns as nullable `TEXT`, preceded by the
`BIGSERIAL` identity column and followed by the `created_at` timestamp
column; and the returned `rows_loaded` equals the file's data-row count
exactly. -/
theorem load_fresh_table (db : LoadDw.DB) (t c1 c2 c3 : String) (n : ℕ)
    (hfresh : LoadDw.lookupTable db t = none)
    (hnodup : ("id" :: [c1, c2, c3] ++ ["created_at"]).Nodup) :
    ∃ db2, LoadDw.run db t [c1, c2, c3] n false = .ok (db2, n)
      ∧ LoadDw.lookupTable db2 t = some
        { schema := [("id", .serialPK), (c1, .text), (c2, .text), (c3, .text),
            ("created_at", .timestampDef)]
          rowCount := n } := by
  have hddl : LoadDw._ddl [c1, c2, c3]
      = [("id", .serialPK), (c1, .text), (c2, .text), (c3, .text),
          ("created_at", .timestampDef)] := rfl
  have hnames : (LoadDw._ddl [c1, c2, c3]).map (fun p => p.1)
      = "id" :: [c1, c2, c3] ++ ["created_at"] := rfl
  refine ⟨LoadDw.setTable (LoadDw.setTable db t
    { schema := LoadDw._ddl [c1, c2, c3], rowCount := 0 }) t
    { schema := LoadDw._ddl [c1, c2, c3], rowCount := n }, ?_, ?_⟩
  · unfold LoadDw.run
    rw [if_neg (by simp)]
    simp only [hfresh]
    rw [hnames, if_pos hnodup]
    unfold LoadDw.loadCopy
    rw [lookupTable_setTable]
    simp
  · rw [lookupTable_setTable, hddl]

/-- Witness for C9: a fresh empty destination, a 3-column header and two
data rows; the created schema and the loaded count are checked on the
resulting database value. -/
theorem load_fresh_table_witness :
    ∃ db2, LoadDw.run [] "ddm_icfes_pib" ["año", "punt_global", "pib_departamental_mm"] 2 false
        = .ok (db2, 2)
      ∧ LoadDw.lookupTable db2 "ddm_icfes_pib" = some
        { schema := [("id", .serialPK), ("año", .text), ("punt_global", .text),
            ("pib_departamental_mm", .text), ("created_at", .timestampDef)]
          rowCount := 2 } :=
  load_fresh_table [] "ddm_icfes_pib" "año" "punt_global" "pib_departamental_mm" 2
    (by decide) (by decide)
